import Mathlib

/-!
Verification development for the `dapi-staking` pallet of the massbitchain
repository (`pallets/dapi-staking/src/types.rs` and
`pallets/dapi-staking/src/lib.rs`).

Machine integers are modelled as `Nat` together with the explicit bounds of
the corresponding Rust types:
* `Balance` is `u128` (see `mock.rs`: `pub(crate) type Balance = u128`), so
  `saturating_add` on balances clamps at `2 ^ 128 - 1` and `checked_add`
  fails above it; `saturating_sub` coincides with truncated `Nat`
  subtraction.
* `EraIndex` is `u32` (`pub type EraIndex = u32`), so `saturating_add` on
  era indices clamps at `2 ^ 32 - 1`.

`ProviderStatus` keeps the constructor names of `types.rs`
(`Registered` / `Unregistered`); `lib.rs` refers to the same two states as
`Active` / `Inactive`.  Likewise the `EraInfo` field is called
`starting_block` in `types.rs` while `lib.rs` calls it `first_block`.
-/

/-- Upper value of the Rust `u128` type used for `Balance`. -/
def maxBalance : Nat := 2 ^ 128 - 1

/-- Upper value of the Rust `u32` type used for `EraIndex`. -/
def eraMax : Nat := 2 ^ 32 - 1

/-- Rust `u128::saturating_add`. -/
def satAdd (a b : Nat) : Nat := min (a + b) maxBalance

/-- Rust `u32::saturating_add`. -/
def satAdd32 (a b : Nat) : Nat := min (a + b) eraMax

/-- Rust `u128::checked_add`: `none` on overflow. -/
def checkedAdd (a b : Nat) : Option Nat :=
  if a + b ≤ maxBalance then some (a + b) else none

/-- `types.rs` `EraStake`: an amount delegated as of a given era.  Field
order (`amount` before `era`) follows the source. -/
structure EraStake where
  amount : Nat
  era : Nat
  deriving Repr, DecidableEq

/-- Head removal of a zero-amount entry, the
`if !self.stakes.is_empty() && self.stakes[0].amount.is_zero() { self.stakes.remove(0); }`
compaction step shared by `Delegation::unstake` and `Delegation::claim`. -/
def dropZeroHead : List EraStake → List EraStake
  | [] => []
  | s :: rest => if s.amount = 0 then rest else s :: rest

/-- Core of `Delegation::stake` (`types.rs` lines 140-157), phrased as a
recursion that rewrites the last element of the vector: on an empty vector
push `(amount, era)`; otherwise, with `last` the final entry, fail when
`last.era > current_era`, replace `last` by
`(last.amount.saturating_add(amount), current_era)` when the eras are equal
and push that entry otherwise. -/
def stakeList : List EraStake → Nat → Nat → Except String (List EraStake)
  | [], current_era, amount => .ok [⟨amount, current_era⟩]
  | [last], current_era, amount =>
    if current_era < last.era then .error "Unexpected era"
    else if current_era = last.era then .ok [⟨satAdd last.amount amount, current_era⟩]
    else .ok [last, ⟨satAdd last.amount amount, current_era⟩]
  | x :: y :: rest, current_era, amount =>
    (stakeList (y :: rest) current_era amount).map (x :: ·)

/-- Core of `Delegation::unstake` (`types.rs` lines 177-197) before the
zero-head compaction: on an empty vector do nothing; otherwise update or
push the last entry using `saturating_sub`. -/
def unstakeListCore : List EraStake → Nat → Nat → Except String (List EraStake)
  | [], _, _ => .ok []
  | [last], current_era, amount =>
    if current_era < last.era then .error "Unexpected era"
    else if current_era = last.era then .ok [⟨last.amount - amount, current_era⟩]
    else .ok [last, ⟨last.amount - amount, current_era⟩]
  | x :: y :: rest, current_era, amount =>
    (unstakeListCore (y :: rest) current_era amount).map (x :: ·)

/-- `types.rs` `Delegation`: the compacted per-era stake history. -/
structure Delegation where
  stakes : List EraStake
  deriving Repr, DecidableEq

instance : Inhabited Delegation := ⟨⟨[]⟩⟩

/-- `Delegation::is_empty`. -/
def Delegation.is_empty (d : Delegation) : Bool := d.stakes.isEmpty

/-- `Delegation::len`. -/
def Delegation.len (d : Delegation) : Nat := d.stakes.length

/-- `Delegation::stake` (`types.rs` lines 140-157). -/
def Delegation.stake (d : Delegation) (current_era amount : Nat) :
    Except String Delegation :=
  (stakeList d.stakes current_era amount).map Delegation.mk

/-- `Delegation::unstake` (`types.rs` lines 177-197): tail update followed
by the zero-head compaction (which is a no-op on the empty vector, matching
the source where the whole body is skipped). -/
def Delegation.unstake (d : Delegation) (current_era amount : Nat) :
    Except String Delegation :=
  ((unstakeListCore d.stakes current_era amount).map dropZeroHead).map Delegation.mk

/-- `Delegation::claim` (`types.rs` lines 224-245): read the first entry;
if it is the only entry or the second entry's era exceeds `first.era + 1`,
advance the first entry's era by a (u32-saturating) 1 in place, otherwise
remove it; then drop a zero-amount head; return `(era, amount)` of the
entry read, or `(0, 0)` on the empty vector. -/
def Delegation.claim (d : Delegation) : (Nat × Nat) × Delegation :=
  match d.stakes with
  | [] => ((0, 0), ⟨[]⟩)
  | s :: rest =>
    let advanced : List EraStake :=
      match rest with
      | [] => [⟨s.amount, satAdd32 s.era 1⟩]
      | next :: _ =>
        if s.era + 1 < next.era then ⟨s.amount, satAdd32 s.era 1⟩ :: rest else rest
    ((s.era, s.amount), ⟨dropZeroHead advanced⟩)

/-- `Delegation::latest_staked_value`. -/
def Delegation.latest_staked_value (d : Delegation) : Nat :=
  (d.stakes.getLast?).elim 0 EraStake.amount

/-- `types.rs` `UnlockingChunk`. -/
structure UnlockingChunk where
  amount : Nat
  unlock_era : Nat
  deriving Repr, DecidableEq

/-- `types.rs` `UnbondingMetadata`: unlocking chunks sorted by unlock era. -/
structure UnbondingMetadata where
  unlocking_chunks : List UnlockingChunk
  deriving Repr, DecidableEq

instance : Inhabited UnbondingMetadata := ⟨⟨[]⟩⟩

/-- `UnbondingMetadata::len`. -/
def UnbondingMetadata.len (u : UnbondingMetadata) : Nat := u.unlocking_chunks.length

/-- `UnbondingMetadata::is_empty`. -/
def UnbondingMetadata.is_empty (u : UnbondingMetadata) : Bool :=
  u.unlocking_chunks.isEmpty

/-- `UnbondingMetadata::sum` (`types.rs` lines 300-306): `reduce` over `+`
on the chunk amounts, `unwrap_or_default` (`0`) on the empty vector.
`reduce` with the first amount as the seed equals a fold of the tail onto
that amount. -/
def UnbondingMetadata.sum (u : UnbondingMetadata) : Nat :=
  match u.unlocking_chunks with
  | [] => 0
  | c :: cs => cs.foldl (fun acc x => acc + x.amount) c.amount

/-- Sorted-position insertion of a chunk, merging on an equal unlock era:
the effect of the `binary_search_by` + (`add_amount` | `insert`) body of
`UnbondingMetadata::add` (`types.rs` lines 309-318) on a vector sorted by
`unlock_era` (the documented invariant of the field). -/
def insertChunk : List UnlockingChunk → UnlockingChunk → List UnlockingChunk
  | [], chunk => [chunk]
  | c :: cs, chunk =>
    if c.unlock_era = chunk.unlock_era then ⟨c.amount + chunk.amount, c.unlock_era⟩ :: cs
    else if chunk.unlock_era < c.unlock_era then chunk :: c :: cs
    else c :: insertChunk cs chunk

/-- `UnbondingMetadata::add`. -/
def UnbondingMetadata.add (u : UnbondingMetadata) (chunk : UnlockingChunk) :
    UnbondingMetadata :=
  ⟨insertChunk u.unlocking_chunks chunk⟩

/-- `UnbondingMetadata::partition` (`types.rs` lines 326-333): Rust's
`Iterator::partition` keeps relative order and puts the chunks satisfying
`chunk.unlock_era <= era` in the first group. -/
def UnbondingMetadata.partition (u : UnbondingMetadata) (era : Nat) :
    UnbondingMetadata × UnbondingMetadata :=
  (⟨u.unlocking_chunks.filter (fun chunk => chunk.unlock_era ≤ era)⟩,
   ⟨u.unlocking_chunks.filter (fun chunk => ¬ chunk.unlock_era ≤ era)⟩)

/-- `types.rs` `EraInfo` (the singleton era-transition record; `lib.rs`
calls the second field `first_block`). -/
structure EraInfo where
  current : Nat
  starting_block : Nat
  length : Nat
  deriving Repr, DecidableEq

/-- `EraInfo::should_update` (`types.rs` lines 369-371):
`now - self.starting_block >= self.length` on unsigned block numbers
(truncated subtraction; the hook only ever calls it with
`now >= starting_block`). -/
def EraInfo.should_update (e : EraInfo) (now : Nat) : Bool :=
  e.length ≤ now - e.starting_block

/-- `EraInfo::update` (`types.rs` lines 374-377): `current` advances by a
u32-saturating 1 and `starting_block` becomes `now`. -/
def EraInfo.update (e : EraInfo) (now : Nat) : EraInfo :=
  { e with current := satAdd32 e.current 1, starting_block := now }

/-- `impl Default for EraInfo` (`types.rs` lines 379-386):
`EraInfo::new(1u32, 1u32.into(), 20u32)`. -/
def eraInfoDefault : EraInfo := ⟨1, 1, 20⟩

/-- `types.rs` `ProviderStatus` (`lib.rs` refers to these two states as
`Active` and `Inactive`). -/
inductive ProviderStatus where
  | Registered : ProviderStatus
  | Unregistered : Nat → ProviderStatus
  deriving Repr, DecidableEq

/-- `types.rs` `ProviderMetadata` (provider ids and account ids are the
keys, kept outside this record). -/
structure ProviderMetadata where
  owner : Nat
  status : ProviderStatus
  bond_withdrawn : Bool
  deriving Repr, DecidableEq

/-- `types.rs` `EraMetadata`: total rewards and staked amount of an era. -/
structure EraMetadata where
  rewards : Nat
  staked : Nat
  deriving Repr, DecidableEq

instance : Inhabited EraMetadata := ⟨⟨0, 0⟩⟩

/-- `types.rs` `ProviderEraMetadata`. -/
structure ProviderEraMetadata where
  bond : Nat
  total : Nat
  number_of_delegators : Nat
  provider_reward_claimed : Bool
  deriving Repr, DecidableEq

/-- Rust `#[derive(Default)]` for `ProviderEraMetadata`. -/
instance : Inhabited ProviderEraMetadata := ⟨⟨0, 0, 0, false⟩⟩

/-! ### Operation sequences on a `Delegation` and their per-era semantics -/

/-- A `Delegation::stake` or `Delegation::unstake` call, with its
`current_era` and `amount` arguments. -/
inductive DelegationOp where
  | stakeOp (era amount : Nat) : DelegationOp
  | unstakeOp (era amount : Nat) : DelegationOp
  deriving Repr, DecidableEq

/-- The `current_era` argument of an operation. -/
def DelegationOp.opEra : DelegationOp → Nat
  | .stakeOp e _ => e
  | .unstakeOp e _ => e

/-- The effect of an operation on a running staked value, exactly as the
source applies it to the last ledger entry (`saturating_add` /
`saturating_sub`). -/
def DelegationOp.opApply : DelegationOp → Nat → Nat
  | .stakeOp _ a, v => satAdd v a
  | .unstakeOp _ a, v => v - a

/-- The `amount` argument of an operation. -/
def DelegationOp.opAmount : DelegationOp → Nat
  | .stakeOp _ a => a
  | .unstakeOp _ a => a

/-- Apply one operation to a `Delegation`. -/
def applyOp (d : Delegation) : DelegationOp → Except String Delegation
  | .stakeOp e a => d.stake e a
  | .unstakeOp e a => d.unstake e a

/-- Apply a sequence of operations in order, stopping at the first error. -/
def applyOps (d : Delegation) : List DelegationOp → Except String Delegation
  | [] => .ok d
  | op :: ops => (applyOp d op).bind (applyOps · ops)

/-- The amount staked during era `t` after running `ops` from an empty
delegation: the running value obtained by applying, in order, every
operation whose era is at most `t`. -/
def histVal (ops : List DelegationOp) (t : Nat) : Nat :=
  ops.foldl (fun v op => if op.opEra ≤ t then op.opApply v else v) 0

/-- Sum of the amounts of all `stakeOp`s in a sequence. -/
def stakeSum (ops : List DelegationOp) : Nat :=
  (ops.map (fun op => match op with | .stakeOp _ a => a | .unstakeOp _ _ => 0)).sum

/-- Sum of the amounts of all `unstakeOp`s in a sequence. -/
def unstakeSum (ops : List DelegationOp) : Nat :=
  (ops.map (fun op => match op with | .stakeOp _ _ => 0 | .unstakeOp _ a => a)).sum

/-- Call `claim()` repeatedly (at most `fuel` times) until the delegation
is empty, collecting the returned `(era, amount)` pairs and the final
delegation. -/
def claimAllSt : Nat → Delegation → List (Nat × Nat) × Delegation
  | 0, d => ([], d)
  | fuel + 1, d =>
    match d.stakes with
    | [] => ([], d)
    | _ :: _ =>
      let step := d.claim
      let rest := claimAllSt fuel step.2
      (step.1 :: rest.1, rest.2)

/-- An upper bound on the number of `claim()` calls needed to drain a
ledger whose last entry has amount `0`: one call per era covered by each
entry plus one final call. -/
def claimFuel : List EraStake → Nat
  | [] => 0
  | [_] => 1
  | x :: y :: rest => (y.era - x.era) + claimFuel (y :: rest)

/-- The total claimable value encoded by a ledger whose runs are closed:
each entry contributes its amount once per era until the next entry takes
over (the final entry contributes nothing here; with a zero final amount it
has nothing to contribute). -/
def encVal : List EraStake → Nat
  | [] => 0
  | [_] => 0
  | x :: y :: rest => x.amount * (y.era - x.era) + encVal (y :: rest)

/-- Read the run-length-encoded ledger at era `t`: the amount of the last
entry whose era is at most `t` (`0` before the first entry).  This is the
documented interpretation of the `Delegation` vector (`types.rs` lines
90-108). -/
def evalLedger : List EraStake → Nat → Nat
  | [], _ => 0
  | s :: rest, t =>
    if t < s.era then 0
    else
      match rest with
      | [] => s.amount
      | y :: _ => if t < y.era then s.amount else evalLedger rest t

/-- Era of the last entry (`0` for the empty ledger). -/
def lastEraD : List EraStake → Nat
  | [] => 0
  | [x] => x.era
  | _ :: y :: rest => lastEraD (y :: rest)

/-- Amount of the last entry (`0` for the empty ledger); this is
`Delegation::latest_staked_value`. -/
def lastAmount : List EraStake → Nat
  | [] => 0
  | [x] => x.amount
  | _ :: y :: rest => lastAmount (y :: rest)

/-- Spec-side restatement of `claim()` used to check the source against the
specification's description: return the oldest pair; if a next entry exists
whose era is exactly `oldest.era + 1` the oldest entry is removed, otherwise
the oldest entry's era advances by a (u32-saturating) 1 in place; after
advancing, a zero-amount head entry is dropped; the empty ledger yields
`(0, 0)` unchanged. -/
def claimSpec (d : Delegation) : (Nat × Nat) × Delegation :=
  match d.stakes with
  | [] => ((0, 0), ⟨[]⟩)
  | x :: rest =>
    ((x.era, x.amount),
     ⟨dropZeroHead
        (match rest with
         | [] => [⟨x.amount, satAdd32 x.era 1⟩]
         | next :: _ =>
           if next.era = x.era + 1 then rest
           else ⟨x.amount, satAdd32 x.era 1⟩ :: rest)⟩)

/-! ### The pallet state machine (`lib.rs`)

Storage maps are modelled as functions; `lib.rs` uses `ProviderStatus`
variants named `Active` / `Inactive` which correspond to `Registered` /
`Unregistered` of `types.rs`, and reads `EraInfo`'s second field as
`first_block` (`starting_block` here).  The `Currency` trait
(`reserve` / `withdraw`) is an external collaborator whose success or
failure is passed in as an explicit `Bool` oracle argument; a failing
currency call aborts the operation exactly where the `?` operator does in
the source. -/

/-- Modelled from the spec: the external `sp_runtime::Perbill` rational
type ("proportions are represented as exact rational fractions of a fixed
denominator (e.g. parts-per-billion)").  `from_rational(p, q)` clamps `p`
to `q`, guards against a zero denominator, and rounds `p / q` down to
parts-per-billion; a multiplication by a balance multiplies by the parts
and divides by `10^9`, rounding down.  The `Perbill` value is its number of
parts. -/
def perbillFromRational (p q : Nat) : Nat :=
  min p q * 1000000000 / max q 1

/-- Modelled from the spec: multiplication `Perbill * Balance` (exact
integer arithmetic, rounding down). -/
def perbillMul (parts x : Nat) : Nat := parts * x / 1000000000

/-- The pallet `Config` constants (`lib.rs` lines 49-105);
`providerRewardsPercentage` is a `Perbill` given by its parts. -/
structure Cfg where
  defaultBlocksPerEra : Nat
  providerRewardsPercentage : Nat
  minProviderStake : Nat
  maxDelegatorsPerProvider : Nat
  minDelegatorStake : Nat
  maxEraStakeValues : Nat
  unbondingPeriod : Nat
  maxUnlockingChunks : Nat

/-- `Error<T>` of `lib.rs` (lines 189-211) plus the two failure modes
propagated with `?` from outside the pallet: `ArithmeticOverflow`
(`ArithmeticError::Overflow`) and `CurrencyError` (a failing
`Currency::reserve` / `Currency::withdraw`). -/
inductive PalletError where
  | ProviderDNE
  | InsufficientBond
  | StakingWithNoValue
  | MaxNumberOfStakersExceeded
  | NotOperatedProvider
  | NotStakedProvider
  | UnknownEra
  | UnexpectedDelegationInfoEra
  | TooManyEraStakeValues
  | UnclaimedRewardsRemaining
  | UnstakingWithNoValue
  | TooManyUnlockingChunks
  | NothingToWithdraw
  | EraOutOfBounds
  | NotOwnedProvider
  | AlreadyClaimedInThisEra
  | NotUnregisteredProvider
  | ProviderExists
  | NoWritingSameValue
  | ArithmeticOverflow
  | CurrencyError
  deriving Repr, DecidableEq

/-- `Event<T>` of `lib.rs` (lines 159-187); account and provider ids are
`Nat`. -/
inductive PalletEvent where
  | ProviderBondedMore (provider_id amount : Nat)
  | ProviderBondedLess (provider_id amount : Nat)
  | Delegated (delegator provider_id amount : Nat)
  | DelegatorUnstaked (delegator provider_id amount : Nat)
  | Withdrawn (who amount : Nat)
  | NewEra (era first_block : Nat)
  | Payout (who provider_id era amount : Nat)
  | BlocksPerEraSet (current_round first_block old new : Nat)
  deriving Repr, DecidableEq

/-- The pallet storage (`lib.rs` lines 107-157) plus the emitted events.
`DelegationInfo` and `UnbondingInfo` are `ValueQuery` maps (default value
on a missing key), the others are `OptionQuery`. -/
structure PalletState where
  era : EraInfo
  eraState : Nat → Option EraMetadata
  rewardAccumulator : Nat
  providerInfo : Nat → Option ProviderMetadata
  providerEraInfo : Nat → Nat → Option ProviderEraMetadata
  delegationInfo : Nat → Nat → Delegation
  unbondingInfo : Nat → UnbondingMetadata
  events : List PalletEvent

/-- Single-key storage-map insert. -/
def upd1 {α : Type} (f : Nat → α) (k : Nat) (v : α) : Nat → α :=
  fun k' => if k' = k then v else f k'

/-- Double-key storage-map insert. -/
def upd2 {α : Type} (f : Nat → Nat → α) (k₁ k₂ : Nat) (v : α) : Nat → Nat → α :=
  fun a b => if a = k₁ ∧ b = k₂ then v else f a b

/-- `StorageMap::mutate` on an `OptionQuery` map whose closure only acts on
`Some` (the `if let Some(x) = value` pattern used for `EraState`). -/
def mutateSome (f : Nat → Option EraMetadata) (k : Nat)
    (g : EraMetadata → EraMetadata) : Nat → Option EraMetadata :=
  fun k' => if k' = k then (f k).map g else f k'

/-- `Pallet::update_delegation_info` (`lib.rs` lines 723-733): remove the
entry when empty, store it otherwise.  On a `ValueQuery` map, removing and
storing the empty default are observationally equal, so both branches store
the value. -/
def update_delegation_info (s : PalletState) (delegator provider_id : Nat)
    (info : Delegation) : PalletState :=
  { s with delegationInfo := upd2 s.delegationInfo delegator provider_id info }

/-- `Pallet::update_unbonding_info` (`lib.rs` lines 713-719), modelled like
`update_delegation_info`. -/
def update_unbonding_info (s : PalletState) (account : Nat)
    (info : UnbondingMetadata) : PalletState :=
  { s with unbondingInfo := upd1 s.unbondingInfo account info }

/-- `Pallet::is_active_provider` (`lib.rs` lines 768-771). -/
def is_active_provider (s : PalletState) (provider_id : Nat) : Bool :=
  match s.providerInfo provider_id with
  | some provider_info => provider_info.status = ProviderStatus.Registered
  | none => false

/-- `Pallet::split_provider_delegators_rewards` (`lib.rs` lines 774-783). -/
def split_provider_delegators_rewards (cfg : Cfg)
    (provider_era_info : ProviderEraMetadata) (era_info : EraMetadata) :
    Nat × Nat :=
  let provider_rewards :=
    perbillMul (perbillFromRational provider_era_info.total era_info.staked)
      era_info.rewards
  let provider_reward_part := perbillMul cfg.providerRewardsPercentage provider_rewards
  let delegators_reward_part := provider_rewards - provider_reward_part
  (provider_reward_part, delegators_reward_part)

/-- `Pallet::snapshot_era_rewards` (`lib.rs` lines 735-743): seed era
`era + 1` with the carried-forward staked total and zero rewards, then
freeze the taken accumulator into era `era`. -/
def snapshot_era_rewards (era : Nat) (s : PalletState) : PalletState :=
  let state := (s.eraState era).getD default
  let s₁ := { s with eraState := upd1 s.eraState (era + 1) (some ⟨0, state.staked⟩) }
  { s₁ with
    eraState := upd1 s₁.eraState era (some { state with rewards := s₁.rewardAccumulator }),
    rewardAccumulator := 0 }

/-- `Pallet::rotate_provider_era_info` (`lib.rs` lines 745-766).  The
source iterates `ProviderInfo::iter()`; each iteration only reads
`(provider_id, era)` and only writes `(provider_id, era + 1)`, so the net
effect of the loop is this pointwise map. -/
def rotate_provider_era_info (era : Nat) (s : PalletState) : PalletState :=
  { s with
    providerEraInfo := fun pid e =>
      if e = era + 1 then
        match s.providerInfo pid with
        | some provider =>
          match provider.status with
          | .Registered =>
            match s.providerEraInfo pid era with
            | some info => some { info with provider_reward_claimed := false }
            | none => s.providerEraInfo pid e
          | .Unregistered _ => s.providerEraInfo pid e
        | none => s.providerEraInfo pid e
      else s.providerEraInfo pid e }

/-- The `on_initialize` hook (`lib.rs` lines 214-238), without the weight
bookkeeping. -/
def on_init_hook (cfg : Cfg) (n : Nat) (s : PalletState) : PalletState :=
  let era := s.era
  if era.should_update n then
    let previous_era := era.current
    let era₁ :=
      if previous_era = 0 then { era with length := cfg.defaultBlocksPerEra } else era
    let era₂ := era₁.update n
    let s₁ := { s with era := era₂ }
    let s₂ := snapshot_era_rewards previous_era s₁
    let s₃ := rotate_provider_era_info previous_era s₂
    { s₃ with events := s₃.events ++ [.NewEra era₂.current era₂.starting_block] }
  else s

/-- `set_blocks_per_era` (`lib.rs` lines 242-257), after a successful root
origin check. -/
def set_blocks_per_era (new : Nat) (s : PalletState) :
    Except PalletError PalletState :=
  let era := s.era
  if era.length = new then .error .NoWritingSameValue
  else
    .ok { s with
      era := { era with length := new },
      events := s.events ++
        [.BlocksPerEraSet era.current era.starting_block era.length new] }

/-- `provider_bond_more` (`lib.rs` lines 259-294). -/
def provider_bond_more (cfg : Cfg) (who provider_id amount : Nat)
    (reserveOk : Bool) (s : PalletState) : Except PalletError PalletState :=
  if amount = 0 then .error .StakingWithNoValue
  else
    match s.providerInfo provider_id with
    | none => .error .ProviderDNE
    | some provider_info =>
      if provider_info.status ≠ ProviderStatus.Registered then
        .error .NotOperatedProvider
      else if provider_info.owner ≠ who then .error .NotOwnedProvider
      else
        let era := s.era.current
        let pei := (s.providerEraInfo provider_id era).getD default
        match checkedAdd pei.bond amount with
        | none => .error .ArithmeticOverflow
        | some newBond =>
          match checkedAdd pei.total amount with
          | none => .error .ArithmeticOverflow
          | some newTotal =>
            if ¬ reserveOk then .error .CurrencyError
            else
              .ok { s with
                eraState := mutateSome s.eraState era
                  (fun x => { x with staked := satAdd x.staked amount }),
                providerEraInfo := upd2 s.providerEraInfo provider_id era
                  (some { pei with bond := newBond, total := newTotal }),
                events := s.events ++ [.ProviderBondedMore provider_id amount] }

/-- `provider_bond_less` (`lib.rs` lines 296-342). -/
def provider_bond_less (cfg : Cfg) (who provider_id amount : Nat)
    (s : PalletState) : Except PalletError PalletState :=
  if amount = 0 then .error .UnstakingWithNoValue
  else
    match s.providerInfo provider_id with
    | none => .error .ProviderDNE
    | some provider_info =>
      if provider_info.status ≠ ProviderStatus.Registered then
        .error .NotOperatedProvider
      else if provider_info.owner ≠ who then .error .NotOwnedProvider
      else
        let current_era := s.era.current
        let pei := (s.providerEraInfo provider_id current_era).getD default
        if pei.bond < amount + cfg.minProviderStake then .error .InsufficientBond
        else
          let pei₁ := { pei with bond := pei.bond - amount, total := pei.total - amount }
          let unbonding_info := (s.unbondingInfo who).add
            ⟨amount, current_era + cfg.unbondingPeriod⟩
          if ¬ unbonding_info.len ≤ cfg.maxUnlockingChunks then
            .error .TooManyUnlockingChunks
          else
            .ok { s with
              unbondingInfo := upd1 s.unbondingInfo who unbonding_info,
              eraState := mutateSome s.eraState current_era
                (fun x => { x with staked := x.staked - amount }),
              providerEraInfo := upd2 s.providerEraInfo provider_id current_era
                (some pei₁),
              events := s.events ++ [.ProviderBondedLess provider_id amount] }

/-- `delegate` (`lib.rs` lines 344-394). -/
def delegate (cfg : Cfg) (delegator provider_id amount : Nat)
    (reserveOk : Bool) (s : PalletState) : Except PalletError PalletState :=
  if amount = 0 then .error .StakingWithNoValue
  else if ¬ is_active_provider s provider_id then .error .NotOperatedProvider
  else
    let era := s.era.current
    let pei := (s.providerEraInfo provider_id era).getD default
    let delegation := s.delegationInfo delegator provider_id
    if ¬ (delegation.latest_staked_value ≠ 0 ∨
        pei.number_of_delegators ≤ cfg.maxDelegatorsPerProvider) then
      .error .MaxNumberOfStakersExceeded
    else
      let pei₁ :=
        if delegation.latest_staked_value = 0 then
          { pei with number_of_delegators := satAdd32 pei.number_of_delegators 1 }
        else pei
      match delegation.stake era amount with
      | .error _ => .error .UnexpectedDelegationInfoEra
      | .ok delegation₁ =>
        if ¬ delegation₁.len < cfg.maxEraStakeValues then .error .TooManyEraStakeValues
        else if delegation₁.latest_staked_value < cfg.minDelegatorStake then
          .error .InsufficientBond
        else
          match checkedAdd pei₁.total amount with
          | none => .error .ArithmeticOverflow
          | some newTotal =>
            if ¬ reserveOk then .error .CurrencyError
            else
              .ok { s with
                eraState := mutateSome s.eraState era
                  (fun x => { x with staked := satAdd x.staked amount }),
                delegationInfo := upd2 s.delegationInfo delegator provider_id
                  delegation₁,
                providerEraInfo := upd2 s.providerEraInfo provider_id era
                  (some { pei₁ with total := newTotal }),
                events := s.events ++ [.Delegated delegator provider_id amount] }

/-- `delegator_unstake` (`lib.rs` lines 396-460). -/
def delegator_unstake (cfg : Cfg) (delegator provider_id amount : Nat)
    (s : PalletState) : Except PalletError PalletState :=
  if amount = 0 then .error .UnstakingWithNoValue
  else if ¬ is_active_provider s provider_id then .error .NotOperatedProvider
  else
    let delegation := s.delegationInfo delegator provider_id
    let staked_amount := delegation.latest_staked_value
    if staked_amount = 0 then .error .NotStakedProvider
    else
      let era := s.era.current
      let pei := (s.providerEraInfo provider_id era).getD default
      let remaining := staked_amount - amount
      let pei₁ :=
        if remaining < cfg.minDelegatorStake then
          { pei with number_of_delegators := pei.number_of_delegators - 1 }
        else pei
      let unstake_amount :=
        if remaining < cfg.minDelegatorStake then staked_amount else amount
      let pei₂ := { pei₁ with total := pei₁.total - unstake_amount }
      if unstake_amount = 0 then .error .UnstakingWithNoValue
      else
        match delegation.unstake era unstake_amount with
        | .error _ => .error .UnexpectedDelegationInfoEra
        | .ok delegation₁ =>
          if ¬ delegation₁.len < cfg.maxEraStakeValues then
            .error .TooManyEraStakeValues
          else
            let unbonding_info := (s.unbondingInfo delegator).add
              ⟨unstake_amount, era + cfg.unbondingPeriod⟩
            if ¬ unbonding_info.len ≤ cfg.maxUnlockingChunks then
              .error .TooManyUnlockingChunks
            else
              .ok { s with
                unbondingInfo := upd1 s.unbondingInfo delegator unbonding_info,
                eraState := mutateSome s.eraState era
                  (fun x => { x with staked := x.staked - unstake_amount }),
                delegationInfo := upd2 s.delegationInfo delegator provider_id
                  delegation₁,
                providerEraInfo := upd2 s.providerEraInfo provider_id era
                  (some pei₂),
                events := s.events ++
                  [.DelegatorUnstaked delegator provider_id unstake_amount] }

/-- `withdraw_unbonded` (`lib.rs` lines 462-476). -/
def withdraw_unbonded (who : Nat) (s : PalletState) :
    Except PalletError PalletState :=
  let unbonding_info := s.unbondingInfo who
  let era := s.era.current
  let parts := unbonding_info.partition era
  let amount := parts.1.sum
  if amount = 0 then .error .NothingToWithdraw
  else
    .ok { s with
      unbondingInfo := upd1 s.unbondingInfo who parts.2,
      events := s.events ++ [.Withdrawn who amount] }

/-- `claim_provider` (`lib.rs` lines 478-522). -/
def claim_provider (cfg : Cfg) (provider_id era : Nat) (withdrawOk : Bool)
    (s : PalletState) : Except PalletError PalletState :=
  match s.providerInfo provider_id with
  | none => .error .NotOperatedProvider
  | some provider_info =>
    let inactive_guard_fails : Bool :=
      match provider_info.status with
      | .Unregistered unregistered_era => decide (unregistered_era ≤ era)
      | .Registered => false
    if inactive_guard_fails then .error .NotOperatedProvider
    else if ¬ era < s.era.current then .error .EraOutOfBounds
    else
      let pei := (s.providerEraInfo provider_id era).getD default
      if pei.provider_reward_claimed then .error .AlreadyClaimedInThisEra
      else if pei.total = 0 then .error .NotStakedProvider
      else
        match s.eraState era with
        | none => .error .UnknownEra
        | some era_state =>
          let provider_reward :=
            (split_provider_delegators_rewards cfg pei era_state).1
          if ¬ withdrawOk then .error .CurrencyError
          else
            .ok { s with
              providerEraInfo := upd2 s.providerEraInfo provider_id era
                (some { pei with provider_reward_claimed := true }),
              events := s.events ++
                [.Payout provider_info.owner provider_id era provider_reward] }

/-- `claim_delegator` (`lib.rs` lines 524-569). -/
def claim_delegator (cfg : Cfg) (delegator provider_id : Nat)
    (withdrawOk : Bool) (s : PalletState) : Except PalletError PalletState :=
  let delegator_info := s.delegationInfo delegator provider_id
  let claimed := delegator_info.claim
  let era := claimed.1.1
  let staked := claimed.1.2
  if staked = 0 then .error .NotStakedProvider
  else
    match s.providerInfo provider_id with
    | none => .error .NotOperatedProvider
    | some provider_info =>
      let inactive_guard_fails : Bool :=
        match provider_info.status with
        | .Unregistered unregistered_era => decide (unregistered_era ≤ era)
        | .Registered => false
      if inactive_guard_fails then .error .NotOperatedProvider
      else if ¬ era < s.era.current then .error .EraOutOfBounds
      else
        let pei := (s.providerEraInfo provider_id era).getD default
        match s.eraState era with
        | none => .error .UnknownEra
        | some era_info =>
          let delegators_reward :=
            (split_provider_delegators_rewards cfg pei era_info).2
          let reward :=
            perbillMul (perbillFromRational staked (pei.total - pei.bond))
              delegators_reward
          if ¬ withdrawOk then .error .CurrencyError
          else
            .ok { (update_delegation_info s delegator provider_id claimed.2) with
              events := s.events ++
                [.Payout delegator provider_id era reward] }

/-- `provider_withdraw_unregistered` (`lib.rs` lines 571-604). -/
def provider_withdraw_unregistered (cfg : Cfg) (provider_id : Nat)
    (s : PalletState) : Except PalletError PalletState :=
  match s.providerInfo provider_id with
  | none => .error .NotOperatedProvider
  | some provider_info =>
    if provider_info.bond_withdrawn then .error .NothingToWithdraw
    else
      match provider_info.status with
      | .Registered => .error .NotUnregisteredProvider
      | .Unregistered unregistered_era =>
        if s.era.current < unregistered_era + cfg.unbondingPeriod then
          .error .NothingToWithdraw
        else
          let pei := (s.providerEraInfo provider_id unregistered_era).getD default
          .ok { s with
            providerInfo := upd1 s.providerInfo provider_id
              (some { provider_info with bond_withdrawn := true }),
            events := s.events ++ [.Withdrawn provider_info.owner pei.bond] }

/-- `delegator_withdraw_unregistered` (`lib.rs` lines 606-642). -/
def delegator_withdraw_unregistered (cfg : Cfg) (delegator provider_id : Nat)
    (s : PalletState) : Except PalletError PalletState :=
  match s.providerInfo provider_id with
  | none => .error .NotOperatedProvider
  | some provider_info =>
    match provider_info.status with
    | .Registered => .error .NotUnregisteredProvider
    | .Unregistered unregistered_era =>
      if s.era.current < unregistered_era + cfg.unbondingPeriod then
        .error .NothingToWithdraw
      else
        let delegation := s.delegationInfo delegator provider_id
        let staked_value := delegation.latest_staked_value
        if staked_value = 0 then .error .NotStakedProvider
        else
          let claimable_era := delegation.claim.1.1
          if ¬ (claimable_era ≥ unregistered_era ∨ claimable_era = 0) then
            .error .UnclaimedRewardsRemaining
          else
            .ok { (update_delegation_info s delegator provider_id ⟨[]⟩) with
              events := s.events ++ [.Withdrawn delegator staked_value] }

/-- `register_provider` (`lib.rs` lines 652-680, the
`DapiStakingRegistration` impl). -/
def register_provider (cfg : Cfg) (account provider_id bond : Nat)
    (reserveOk : Bool) (s : PalletState) : Except PalletError PalletState :=
  if (s.providerInfo provider_id).isSome then .error .ProviderExists
  else if bond < cfg.minProviderStake then .error .InsufficientBond
  else if ¬ reserveOk then .error .CurrencyError
  else
    let era := s.era.current
    let era_state := (s.eraState era).getD default
    .ok { s with
      providerInfo := upd1 s.providerInfo provider_id
        (some ⟨account, ProviderStatus.Registered, false⟩),
      providerEraInfo := upd2 s.providerEraInfo provider_id era
        (some ⟨bond, bond, 0, false⟩),
      eraState := upd1 s.eraState era
        (some { era_state with staked := satAdd era_state.staked bond }) }

/-- `unregister_provider` (`lib.rs` lines 682-698). -/
def unregister_provider (provider_id : Nat) (s : PalletState) :
    Except PalletError PalletState :=
  match s.providerInfo provider_id with
  | none => .error .ProviderDNE
  | some provider =>
    if provider.status ≠ ProviderStatus.Registered then .error .NotOperatedProvider
    else
      let current_era := s.era.current
      let pei := (s.providerEraInfo provider_id current_era).getD default
      .ok { s with
        providerInfo := upd1 s.providerInfo provider_id
          (some { provider with status := ProviderStatus.Unregistered current_era }),
        eraState := mutateSome s.eraState current_era
          (fun x => { x with staked := x.staked - pei.total }) }

/-- `Pallet::handle_imbalance` (`lib.rs` lines 786-791): accumulate the
incoming reward amount; the `resolve_creating` into the escrow account is
an external currency effect. -/
def handle_imbalance (amount : Nat) (s : PalletState) : PalletState :=
  { s with rewardAccumulator := satAdd s.rewardAccumulator amount }

/-- One successful pallet state transition: any extrinsic, trait call,
reward hand-in or the per-block hook, with the currency oracle chosen
arbitrarily. -/
inductive PStep (cfg : Cfg) : PalletState → PalletState → Prop where
  | set_blocks (new : Nat) {s s'} :
      set_blocks_per_era new s = .ok s' → PStep cfg s s'
  | bond_more (who provider_id amount : Nat) (ok : Bool) {s s'} :
      provider_bond_more cfg who provider_id amount ok s = .ok s' → PStep cfg s s'
  | bond_less (who provider_id amount : Nat) {s s'} :
      provider_bond_less cfg who provider_id amount s = .ok s' → PStep cfg s s'
  | do_delegate (delegator provider_id amount : Nat) (ok : Bool) {s s'} :
      delegate cfg delegator provider_id amount ok s = .ok s' → PStep cfg s s'
  | do_unstake (delegator provider_id amount : Nat) {s s'} :
      delegator_unstake cfg delegator provider_id amount s = .ok s' → PStep cfg s s'
  | do_withdraw (who : Nat) {s s'} :
      withdraw_unbonded who s = .ok s' → PStep cfg s s'
  | do_claim_provider (provider_id era : Nat) (ok : Bool) {s s'} :
      claim_provider cfg provider_id era ok s = .ok s' → PStep cfg s s'
  | do_claim_delegator (delegator provider_id : Nat) (ok : Bool) {s s'} :
      claim_delegator cfg delegator provider_id ok s = .ok s' → PStep cfg s s'
  | provider_withdraw (provider_id : Nat) {s s'} :
      provider_withdraw_unregistered cfg provider_id s = .ok s' → PStep cfg s s'
  | delegator_withdraw (delegator provider_id : Nat) {s s'} :
      delegator_withdraw_unregistered cfg delegator provider_id s = .ok s' →
        PStep cfg s s'
  | do_register (account provider_id bond : Nat) (ok : Bool) {s s'} :
      register_provider cfg account provider_id bond ok s = .ok s' → PStep cfg s s'
  | do_unregister (provider_id : Nat) {s s'} :
      unregister_provider provider_id s = .ok s' → PStep cfg s s'
  | do_on_init (n : Nat) {s} :
      PStep cfg s (on_init_hook cfg n s)
  | do_handle_imbalance (amount : Nat) {s} :
      PStep cfg s (handle_imbalance amount s)

/-- Any number of successful transitions. -/
def PReach (cfg : Cfg) : PalletState → PalletState → Prop :=
  Relation.ReflTransGen (PStep cfg)

/-- The invariant behind the at-most-once provider claim: era `e` of
provider `p` lies strictly in the past (and within the `u32` era range),
its `ProviderEraInfo` record is marked claimed, and the provider record
exists with any deactivation era strictly after `e`. -/
def ClaimedInv (p e : Nat) (s : PalletState) : Prop :=
  e < s.era.current ∧ e < eraMax ∧
  (∃ r, s.providerEraInfo p e = some r ∧ r.provider_reward_claimed = true) ∧
  (∃ m, s.providerInfo p = some m ∧
    ∀ u, m.status = ProviderStatus.Unregistered u → e < u)

/-- The `mock.rs` configuration constants of the pallet's own test suite
(`BLOCKS_PER_ERA = 3`, `PROVIDER_REWARD_PERCENTAGE = 80%`,
`MIN_PROVIDER_STAKE = 10`, `MAX_NUMBER_OF_DELEGATORS = 5`,
`MIN_DELEGATOR_STAKE = 10`, `MAX_ERA_STAKE_VALUES = 8`,
`UNBONDING_PERIOD = 3`, `MAX_UNLOCKING_CHUNKS = 4`). -/
def cfgMock : Cfg := ⟨3, 800000000, 10, 5, 10, 8, 3, 4⟩

/-- A concrete state: era 2 is current; provider `0` (owner `7`) is active
with bond 10 and total 15 in era 1; account `2` delegated 5 in era 1; era
1's snapshot holds 1000 rewards over 15 staked. -/
def sClaim : PalletState where
  era := ⟨2, 1, 20⟩
  eraState := fun e => if e = 1 then some ⟨1000, 15⟩ else none
  rewardAccumulator := 0
  providerInfo := fun p => if p = 0 then some ⟨7, .Registered, false⟩ else none
  providerEraInfo := fun p e => if p = 0 ∧ e = 1 then some ⟨10, 15, 1, false⟩ else none
  delegationInfo := fun a p => if a = 2 ∧ p = 0 then ⟨[⟨5, 1⟩]⟩ else ⟨[]⟩
  unbondingInfo := fun _ => ⟨[]⟩
  events := []

/-- A concrete state: provider `0` was unregistered at era 3, the current
era is 5, and account `2` still has an unclaimed delegation entry for
era 3. -/
def sInactive : PalletState where
  era := ⟨5, 1, 20⟩
  eraState := fun e => if e ≤ 4 then some ⟨1000, 15⟩ else none
  rewardAccumulator := 0
  providerInfo := fun p => if p = 0 then some ⟨7, .Unregistered 3, false⟩ else none
  providerEraInfo := fun p e => if p = 0 ∧ e ≤ 3 then some ⟨10, 15, 1, false⟩ else none
  delegationInfo := fun a p => if a = 2 ∧ p = 0 then ⟨[⟨50, 3⟩]⟩ else ⟨[]⟩
  unbondingInfo := fun _ => ⟨[]⟩
  events := []

/-- A concrete state for the era-rotation theorem: provider `0` is active
with an era-1 record (claimed), provider `1` is unregistered with an era-1
record, provider `2` is active without an era-1 record. -/
def sRotate : PalletState where
  era := ⟨2, 1, 20⟩
  eraState := fun _ => none
  rewardAccumulator := 0
  providerInfo := fun p =>
    if p = 0 then some ⟨7, .Registered, false⟩
    else if p = 1 then some ⟨8, .Unregistered 1, false⟩
    else if p = 2 then some ⟨9, .Registered, false⟩
    else none
  providerEraInfo := fun p e =>
    if p = 0 ∧ e = 1 then some ⟨10, 15, 1, true⟩
    else if p = 1 ∧ e = 1 then some ⟨10, 10, 0, false⟩
    else none
  delegationInfo := fun _ _ => ⟨[]⟩
  unbondingInfo := fun _ => ⟨[]⟩
  events := []

/-- A concrete state at the `u128` boundary: provider `0`'s era-1 total is
`u128::MAX` while account `2` has an active delegation of 50. -/
def sOverflow : PalletState where
  era := ⟨1, 1, 20⟩
  eraState := fun _ => none
  rewardAccumulator := 0
  providerInfo := fun p => if p = 0 then some ⟨7, .Registered, false⟩ else none
  providerEraInfo := fun p e =>
    if p = 0 ∧ e = 1 then some ⟨10, maxBalance, 1, false⟩ else none
  delegationInfo := fun a p => if a = 2 ∧ p = 0 then ⟨[⟨50, 1⟩]⟩ else ⟨[]⟩
  unbondingInfo := fun _ => ⟨[]⟩
  events := []

/-- The state after `claim_provider(0, era 1)` succeeds on `sClaim`. -/
def sClaimProvRes : PalletState :=
  { sClaim with
    providerEraInfo := upd2 sClaim.providerEraInfo 0 1 (some ⟨10, 15, 1, true⟩),
    events := sClaim.events ++ [.Payout 7 0 1 800] }

/-- The state after `claim_delegator(2, 0)` succeeds on `sClaim`. -/
def sClaimDelRes : PalletState :=
  { update_delegation_info sClaim 2 0 ⟨[⟨5, 2⟩]⟩ with
    events := sClaim.events ++ [.Payout 2 0 1 200] }

/-! ### Ledger lemmas -/

/-- Strictly increasing eras along the ledger: the documented invariant of
the `Delegation` vector. -/
abbrev ErasSorted (l : List EraStake) : Prop :=
  l.Pairwise (fun a b => a.era < b.era)

theorem evalLedger_of_forall_lt {l : List EraStake} {t : Nat}
    (h : ∀ s ∈ l, t < s.era) : evalLedger l t = 0 := by
  cases l with
  | nil => rfl
  | cons s rest => simp [evalLedger, h s (by simp)]

theorem evalLedger_singleton (s : EraStake) (t : Nat) :
    evalLedger [s] t = if t < s.era then 0 else s.amount := rfl

theorem evalLedger_cons₂ (s y : EraStake) (rest : List EraStake) (t : Nat) :
    evalLedger (s :: y :: rest) t =
      if t < s.era then 0
      else if t < y.era then s.amount else evalLedger (y :: rest) t := rfl

theorem evalLedger_of_forall_le {l : List EraStake} {t : Nat}
    (h : ∀ s ∈ l, s.era ≤ t) : evalLedger l t = lastAmount l := by
  induction l with
  | nil => rfl
  | cons s rest ih =>
    cases rest with
    | nil => simp [evalLedger_singleton, lastAmount, Nat.not_lt.mpr (h s (by simp))]
    | cons y rest' =>
      have hs := Nat.not_lt.mpr (h s (by simp))
      have hy := Nat.not_lt.mpr (h y (by simp))
      rw [evalLedger_cons₂, if_neg hs, if_neg hy]
      simpa [lastAmount] using ih (fun z hz => h z (by simp [hz]))

theorem erasSorted_cons {s : EraStake} {rest : List EraStake}
    (h : ErasSorted (s :: rest)) :
    (∀ z ∈ rest, s.era < z.era) ∧ ErasSorted rest := by
  rw [ErasSorted, List.pairwise_cons] at h
  exact h

theorem evalLedger_dropZeroHead {l : List EraStake} (hsort : ErasSorted l)
    (t : Nat) : evalLedger (dropZeroHead l) t = evalLedger l t := by
  cases l with
  | nil => rfl
  | cons s rest =>
    by_cases hz : s.amount = 0
    · simp only [dropZeroHead, if_pos hz]
      obtain ⟨hlt, hrest⟩ := erasSorted_cons hsort
      by_cases ht : t < s.era
      · rw [evalLedger_of_forall_lt (fun z hz' => Nat.lt_trans ht (hlt z hz'))]
        simp [evalLedger, ht]
      · cases rest with
        | nil => simp [evalLedger, ht, hz]
        | cons y rest' =>
          by_cases hty : t < y.era
          · rw [evalLedger_of_forall_lt (l := y :: rest')]
            · simp [evalLedger, ht, hty, hz]
            · intro z hz'
              rcases List.mem_cons.mp hz' with rfl | h1
              · exact hty
              · obtain ⟨hy2, _⟩ := erasSorted_cons hrest
                have := hy2 z h1
                omega
          · simp [evalLedger, ht, hty]
    · simp [dropZeroHead, if_neg hz]

theorem encVal_dropZeroHead (l : List EraStake) :
    encVal (dropZeroHead l) = encVal l := by
  cases l with
  | nil => rfl
  | cons s rest =>
    by_cases hz : s.amount = 0
    · cases rest with
      | nil => simp [dropZeroHead, hz, encVal]
      | cons y rest' => simp [dropZeroHead, hz, encVal]
    · simp [dropZeroHead, hz]

theorem claimFuel_dropZeroHead (l : List EraStake) :
    claimFuel (dropZeroHead l) ≤ claimFuel l := by
  cases l with
  | nil => exact Nat.le_refl _
  | cons s rest =>
    by_cases hz : s.amount = 0
    · cases rest with
      | nil => simp [dropZeroHead, hz, claimFuel]
      | cons y rest' => simp [dropZeroHead, hz, claimFuel]
    · simp [dropZeroHead, hz]

theorem lastAmount_dropZeroHead (l : List EraStake) :
    lastAmount (dropZeroHead l) = lastAmount l := by
  cases l with
  | nil => rfl
  | cons s rest =>
    by_cases hz : s.amount = 0
    · cases rest with
      | nil => simp [dropZeroHead, hz, lastAmount]
      | cons y rest' => simp [dropZeroHead, hz, lastAmount]
    · simp [dropZeroHead, hz]

theorem erasSorted_dropZeroHead {l : List EraStake} (h : ErasSorted l) :
    ErasSorted (dropZeroHead l) := by
  cases l with
  | nil => exact h
  | cons s rest =>
    by_cases hz : s.amount = 0
    · simpa [dropZeroHead, hz] using (erasSorted_cons h).2
    · simpa [dropZeroHead, hz] using h

theorem mem_dropZeroHead {l : List EraStake} {s : EraStake}
    (h : s ∈ dropZeroHead l) : s ∈ l := by
  cases l with
  | nil => exact h
  | cons x rest =>
    by_cases hz : x.amount = 0
    · simp only [dropZeroHead, if_pos hz] at h
      exact List.mem_cons_of_mem _ h
    · simpa [dropZeroHead, hz] using h

theorem one_le_claimFuel {l : List EraStake} (h : l ≠ []) : 1 ≤ claimFuel l := by
  induction l with
  | nil => exact absurd rfl h
  | cons s rest ih =>
    cases rest with
    | nil => simp [claimFuel]
    | cons y rest' =>
      have := ih (by simp)
      simp only [claimFuel]
      omega

theorem lastEraD_mem {l : List EraStake} (h : l ≠ []) :
    ∃ s ∈ l, s.era = lastEraD l := by
  induction l with
  | nil => exact absurd rfl h
  | cons s rest ih =>
    cases rest with
    | nil => exact ⟨s, by simp, by simp [lastEraD]⟩
    | cons y rest' =>
      obtain ⟨z, hz, hze⟩ := ih (by simp)
      exact ⟨z, List.mem_cons_of_mem _ hz, by simpa [lastEraD] using hze⟩

theorem era_le_lastEraD {l : List EraStake} (hsort : ErasSorted l) :
    ∀ s ∈ l, s.era ≤ lastEraD l := by
  induction l with
  | nil => intro s hs; simp at hs
  | cons x rest ih =>
    intro s hs
    obtain ⟨hlt, hrest⟩ := erasSorted_cons hsort
    cases rest with
    | nil =>
      simp only [List.mem_singleton] at hs
      simp [hs, lastEraD]
    | cons y rest' =>
      rcases List.mem_cons.mp hs with rfl | h1
      · have h2 : y.era ≤ lastEraD (y :: rest') := ih hrest y (by simp)
        have h3 := hlt y (by simp)
        simp only [lastEraD]
        omega
      · simpa [lastEraD] using ih hrest s h1

theorem claim_nil : Delegation.claim ⟨[]⟩ = ((0, 0), ⟨[]⟩) := rfl

theorem claim_singleton (x : EraStake) :
    Delegation.claim ⟨[x]⟩ =
      ((x.era, x.amount), ⟨dropZeroHead [⟨x.amount, satAdd32 x.era 1⟩]⟩) := rfl

theorem claim_cons₂ (x y : EraStake) (rest : List EraStake) :
    Delegation.claim ⟨x :: y :: rest⟩ =
      ((x.era, x.amount),
       ⟨dropZeroHead
          (if x.era + 1 < y.era then (⟨x.amount, satAdd32 x.era 1⟩ : EraStake) :: y :: rest
           else y :: rest)⟩) := rfl

theorem claim_step (x : EraStake) (rest : List EraStake)
    (hsort : ErasSorted (x :: rest))
    (hbound : ∀ s ∈ x :: rest, s.era ≤ eraMax)
    (hzero : lastAmount (x :: rest) = 0) :
    (Delegation.claim ⟨x :: rest⟩).1 = (x.era, x.amount) ∧
    ErasSorted (Delegation.claim ⟨x :: rest⟩).2.stakes ∧
    (∀ s ∈ (Delegation.claim ⟨x :: rest⟩).2.stakes, s.era ≤ eraMax) ∧
    lastAmount (Delegation.claim ⟨x :: rest⟩).2.stakes = 0 ∧
    x.amount + encVal (Delegation.claim ⟨x :: rest⟩).2.stakes = encVal (x :: rest) ∧
    claimFuel (Delegation.claim ⟨x :: rest⟩).2.stakes < claimFuel (x :: rest) := by
  cases rest with
  | nil =>
    have hx0 : x.amount = 0 := hzero
    rw [claim_singleton]
    refine ⟨rfl, ?_, ?_, ?_, ?_, ?_⟩
    · simp [dropZeroHead, hx0, ErasSorted]
    · simp [dropZeroHead, hx0]
    · simp [dropZeroHead, hx0, lastAmount]
    · simp [dropZeroHead, hx0, encVal]
    · simp [dropZeroHead, hx0, claimFuel]
  | cons y rest' =>
    obtain ⟨hx_all, hrest_sorted⟩ := erasSorted_cons hsort
    obtain ⟨hy_all, _⟩ := erasSorted_cons hrest_sorted
    have hzero' : lastAmount (y :: rest') = 0 := hzero
    have hyM : y.era ≤ eraMax := hbound y (by simp)
    by_cases h : x.era + 1 < y.era
    · have hsat : satAdd32 x.era 1 = x.era + 1 := by
        have h1 : x.era + 1 ≤ eraMax := by omega
        simp [satAdd32, Nat.min_eq_left h1]
      have hsort₁ : ErasSorted ((⟨x.amount, x.era + 1⟩ : EraStake) :: y :: rest') := by
        refine List.pairwise_cons.mpr ⟨?_, hrest_sorted⟩
        intro z hz
        rcases List.mem_cons.mp hz with rfl | hz'
        · simpa using h
        · have := hy_all z hz'
          simp only
          omega
      rw [claim_cons₂, if_pos h, hsat]
      dsimp only
      refine ⟨rfl, ?_, ?_, ?_, ?_, ?_⟩
      · exact erasSorted_dropZeroHead hsort₁
      · intro s hs
        have hs' := mem_dropZeroHead hs
        rcases List.mem_cons.mp hs' with rfl | hs''
        · simpa using Nat.le_trans (by omega) hyM
        · exact hbound s (List.mem_cons_of_mem _ hs'')
      · rw [lastAmount_dropZeroHead]
        exact hzero'
      · rw [encVal_dropZeroHead]
        have hrw : y.era - (x.era + 1) + 1 = y.era - x.era := by omega
        have e1 : x.amount * (y.era - x.era) =
            x.amount * (y.era - (x.era + 1)) + x.amount := by
          rw [← hrw, Nat.mul_add, Nat.mul_one]
        simp only [encVal, e1]
        omega
      · have h1 := claimFuel_dropZeroHead
          ((⟨x.amount, x.era + 1⟩ : EraStake) :: y :: rest')
        simp only [claimFuel] at h1 ⊢
        omega
    · have hxy : x.era < y.era := hx_all y (by simp)
      have hyx : y.era - x.era = 1 := by omega
      rw [claim_cons₂, if_neg h]
      dsimp only
      refine ⟨rfl, ?_, ?_, ?_, ?_, ?_⟩
      · exact erasSorted_dropZeroHead hrest_sorted
      · intro s hs
        exact hbound s (List.mem_cons_of_mem _ (mem_dropZeroHead hs))
      · rw [lastAmount_dropZeroHead]
        exact hzero'
      · rw [encVal_dropZeroHead]
        simp only [encVal, hyx, Nat.mul_one]
      · have h1 := claimFuel_dropZeroHead (y :: rest')
        have h2 := one_le_claimFuel (l := y :: rest') (by simp)
        simp only [claimFuel, hyx]
        omega

theorem claimAllSt_cons (fuel : Nat) (x : EraStake) (rest : List EraStake) :
    claimAllSt (fuel + 1) ⟨x :: rest⟩ =
      ((Delegation.claim ⟨x :: rest⟩).1 ::
         (claimAllSt fuel (Delegation.claim ⟨x :: rest⟩).2).1,
       (claimAllSt fuel (Delegation.claim ⟨x :: rest⟩).2).2) := rfl

theorem claimAllSt_spec :
    ∀ fuel l, claimFuel l ≤ fuel → ErasSorted l → (∀ s ∈ l, s.era ≤ eraMax) →
      lastAmount l = 0 →
      (claimAllSt fuel ⟨l⟩).2 = ⟨[]⟩ ∧
      ((claimAllSt fuel ⟨l⟩).1.map Prod.snd).sum = encVal l := by
  intro fuel
  induction fuel with
  | zero =>
    intro l hfuel _ _ _
    cases l with
    | nil => exact ⟨rfl, rfl⟩
    | cons x rest =>
      have := one_le_claimFuel (l := x :: rest) (by simp)
      omega
  | succ fuel ih =>
    intro l hfuel hsort hbound hzero
    cases l with
    | nil => exact ⟨rfl, rfl⟩
    | cons x rest =>
      obtain ⟨hfst, hsort', hbound', hzero', henc, hcf⟩ :=
        claim_step x rest hsort hbound hzero
      have hfuel' : claimFuel (Delegation.claim ⟨x :: rest⟩).2.stakes ≤ fuel := by
        omega
      have ihr := ih (Delegation.claim ⟨x :: rest⟩).2.stakes hfuel' hsort' hbound' hzero'
      rw [claimAllSt_cons]
      constructor
      · exact ihr.1
      · simp only [List.map_cons, List.sum_cons, hfst]
        rw [ihr.2]
        exact henc

theorem encVal_eq_sum :
    ∀ l, ErasSorted l →
      encVal l = ∑ t in Finset.Ico 0 (lastEraD l), evalLedger l t := by
  intro l
  induction l with
  | nil => intro _; simp [encVal, lastEraD]
  | cons x rest ih =>
    intro hsort
    obtain ⟨hx_all, hrest_sorted⟩ := erasSorted_cons hsort
    cases rest with
    | nil =>
      simp only [encVal, lastEraD]
      refine (Finset.sum_eq_zero ?_).symm
      intro t ht
      have := (Finset.mem_Ico.mp ht).2
      simp [evalLedger_singleton, this]
    | cons y rest' =>
      have hxy : x.era < y.era := hx_all y (by simp)
      have hyL : y.era ≤ lastEraD (y :: rest') :=
        era_le_lastEraD hrest_sorted y (by simp)
      have h1 : (∑ t in Finset.Ico 0 y.era, evalLedger (x :: y :: rest') t) +
          ∑ t in Finset.Ico y.era (lastEraD (y :: rest')),
            evalLedger (x :: y :: rest') t =
          ∑ t in Finset.Ico 0 (lastEraD (y :: rest')),
            evalLedger (x :: y :: rest') t :=
        Finset.sum_Ico_consecutive _ (Nat.zero_le _) hyL
      have h2 : (∑ t in Finset.Ico 0 x.era, evalLedger (x :: y :: rest') t) +
          ∑ t in Finset.Ico x.era y.era, evalLedger (x :: y :: rest') t =
          ∑ t in Finset.Ico 0 y.era, evalLedger (x :: y :: rest') t :=
        Finset.sum_Ico_consecutive _ (Nat.zero_le _) (Nat.le_of_lt hxy)
      have h3 : ∑ t in Finset.Ico 0 x.era, evalLedger (x :: y :: rest') t = 0 := by
        refine Finset.sum_eq_zero ?_
        intro t ht
        have := (Finset.mem_Ico.mp ht).2
        rw [evalLedger_cons₂, if_pos this]
      have h4 : ∑ t in Finset.Ico x.era y.era, evalLedger (x :: y :: rest') t =
          x.amount * (y.era - x.era) := by
        have hc : ∀ t ∈ Finset.Ico x.era y.era,
            evalLedger (x :: y :: rest') t = x.amount := by
          intro t ht
          obtain ⟨ht1, ht2⟩ := Finset.mem_Ico.mp ht
          rw [evalLedger_cons₂, if_neg (Nat.not_lt.mpr ht1), if_pos ht2]
        rw [Finset.sum_congr rfl hc, Finset.sum_const, Nat.card_Ico, smul_eq_mul,
          Nat.mul_comm]
      have h5 : ∑ t in Finset.Ico y.era (lastEraD (y :: rest')),
          evalLedger (x :: y :: rest') t =
          ∑ t in Finset.Ico y.era (lastEraD (y :: rest')),
            evalLedger (y :: rest') t := by
        refine Finset.sum_congr rfl ?_
        intro t ht
        have ht1 := (Finset.mem_Ico.mp ht).1
        rw [evalLedger_cons₂, if_neg (Nat.not_lt.mpr (by omega)),
          if_neg (Nat.not_lt.mpr ht1)]
      have h7 : (∑ t in Finset.Ico 0 y.era, evalLedger (y :: rest') t) +
          ∑ t in Finset.Ico y.era (lastEraD (y :: rest')), evalLedger (y :: rest') t =
          ∑ t in Finset.Ico 0 (lastEraD (y :: rest')), evalLedger (y :: rest') t :=
        Finset.sum_Ico_consecutive _ (Nat.zero_le _) hyL
      have h8 : ∑ t in Finset.Ico 0 y.era, evalLedger (y :: rest') t = 0 := by
        refine Finset.sum_eq_zero ?_
        intro t ht
        have ht2 := (Finset.mem_Ico.mp ht).2
        refine evalLedger_of_forall_lt ?_
        intro z hz
        rcases List.mem_cons.mp hz with rfl | hz'
        · exact ht2
        · have := (erasSorted_cons hrest_sorted).1 z hz'
          omega
      have h6 := ih hrest_sorted
      have hL : lastEraD (x :: y :: rest') = lastEraD (y :: rest') := rfl
      rw [hL]
      simp only [encVal]
      set P := x.amount * (y.era - x.era) with hP
      omega

theorem encVal_eq_range_sum (l : List EraStake) (hsort : ErasSorted l)
    (hM : ∀ s ∈ l, s.era ≤ eraMax) (hzero : lastAmount l = 0) :
    encVal l = ∑ t in Finset.range (eraMax + 1), evalLedger l t := by
  cases l with
  | nil =>
    simp only [encVal]
    refine (Finset.sum_eq_zero ?_).symm
    intro t _
    rfl
  | cons x rest =>
    have hLM : lastEraD (x :: rest) ≤ eraMax := by
      obtain ⟨s, hs, hse⟩ := lastEraD_mem (l := x :: rest) (by simp)
      rw [← hse]
      exact hM s hs
    have hsplit := Finset.sum_Ico_consecutive
      (fun t => evalLedger (x :: rest) t)
      (Nat.zero_le (lastEraD (x :: rest))) (show lastEraD (x :: rest) ≤ eraMax + 1 by omega)
    have htail : ∑ t in Finset.Ico (lastEraD (x :: rest)) (eraMax + 1),
        evalLedger (x :: rest) t = 0 := by
      refine Finset.sum_eq_zero ?_
      intro t ht
      have ht1 := (Finset.mem_Ico.mp ht).1
      have : ∀ s ∈ x :: rest, s.era ≤ t := by
        intro s hs
        exact Nat.le_trans (era_le_lastEraD hsort s hs) ht1
      rw [evalLedger_of_forall_le this, hzero]
    rw [Finset.range_eq_Ico, ← hsplit, htail, Nat.add_zero]
    exact encVal_eq_sum (x :: rest) hsort


theorem stakeList_spec :
    ∀ (l : List EraStake) (e a : Nat), ErasSorted l → (∀ s ∈ l, s.era ≤ e) →
      a ≤ maxBalance →
      ∃ l', stakeList l e a = .ok l' ∧
        ErasSorted l' ∧
        (∀ s ∈ l', s.era ≤ e) ∧
        (∀ s ∈ l', s.era ∈ l.map EraStake.era ∨ s.era = e) ∧
        (∀ z zs, l = z :: zs → ∃ z' tl, l' = z' :: tl ∧ z'.era = z.era) ∧
        (∀ t, evalLedger l' t =
          if e ≤ t then satAdd (evalLedger l t) a else evalLedger l t) := by
  intro l
  induction l with
  | nil =>
    intro e a _ _ ha
    refine ⟨[⟨a, e⟩], rfl, by simp [ErasSorted], by simp, by simp, by simp, ?_⟩
    intro t
    by_cases het : e ≤ t
    · have h0 : satAdd 0 a = a := by simp [satAdd, Nat.min_eq_left ha]
      simp [evalLedger_singleton, Nat.not_lt.mpr het, het, evalLedger, h0]
    · simp [evalLedger_singleton, Nat.lt_of_not_le het, het, evalLedger]
  | cons x rest ih =>
    intro e a hsort hle ha
    obtain ⟨hx_all, hrest_sorted⟩ := erasSorted_cons hsort
    have hxe : x.era ≤ e := hle x (by simp)
    cases rest with
    | nil =>
      by_cases he : e = x.era
      · refine ⟨[⟨satAdd x.amount a, e⟩], ?_, by simp [ErasSorted], by simp [he.symm.le],
          by simp [he], ?_, ?_⟩
        · simp [stakeList, Nat.not_lt.mpr hxe, he]
        · intro z zs hz
          injection hz with h1 _
          exact ⟨_, _, rfl, by rw [← h1]; exact he⟩
        · intro t
          by_cases het : e ≤ t
          · have h1 : ¬ t < x.era := by omega
            have h2 : x.era ≤ t := by omega
            simp [evalLedger_singleton, h1, h2, het, he]
          · have h1 : t < x.era := by omega
            simp [evalLedger_singleton, h1, het]
      · have hlt : x.era < e := by omega
        refine ⟨[x, ⟨satAdd x.amount a, e⟩], ?_, ?_, ?_, ?_, ?_, ?_⟩
        · simp [stakeList, Nat.not_lt.mpr hxe, he]
        · simpa [ErasSorted] using hlt
        · simp [hxe]
        · simp
        · intro z zs hz
          injection hz with h1 _
          exact ⟨_, _, rfl, by rw [h1]⟩
        · intro t
          rw [evalLedger_cons₂]
          by_cases het : e ≤ t
          · have h1 : ¬ t < x.era := by omega
            have h2 : ¬ t < e := by omega
            simp [evalLedger_singleton, h1, h2, het]
          · by_cases htx : t < x.era
            · simp [evalLedger_singleton, htx, het, Nat.lt_of_not_le het]
            · simp [evalLedger_singleton, htx, het, Nat.lt_of_not_le het]
    | cons y rest' =>
      have hyx : x.era < y.era := hx_all y (by simp)
      obtain ⟨l₂', hok, hsort₂, hle₂, horig₂, hhead₂, heval₂⟩ :=
        ih e a hrest_sorted (fun s hs => hle s (List.mem_cons_of_mem _ hs)) ha
      obtain ⟨y', tl, rfl, hy'era⟩ := hhead₂ y rest' rfl
      have hye : y.era ≤ e := hle y (by simp)
      refine ⟨x :: y' :: tl, ?_, ?_, ?_, ?_, ?_, ?_⟩
      · simp [stakeList, hok, Except.map]
      · refine List.pairwise_cons.mpr ⟨?_, hsort₂⟩
        intro z hz
        rcases horig₂ z hz with h1 | h1
        · simp only [List.map_cons, List.mem_cons] at h1
          rcases h1 with h1 | h1
          · omega
          · obtain ⟨w, hw, hwe⟩ := List.mem_map.mp h1
            have := (erasSorted_cons hrest_sorted).1 w hw
            omega
        · omega
      · intro s hs
        rcases List.mem_cons.mp hs with rfl | hs'
        · exact hxe
        · exact hle₂ s hs'
      · intro s hs
        rcases List.mem_cons.mp hs with rfl | hs'
        · simp
        · rcases horig₂ s hs' with h1 | h1
          · left; simp only [List.map_cons, List.mem_cons]; right
            simpa using h1
          · right; exact h1
      · intro z zs hz
        injection hz with h1 _
        exact ⟨_, _, rfl, by rw [h1]⟩
      · intro t
        by_cases ht1 : t < x.era
        · rw [evalLedger_cons₂, if_pos ht1, evalLedger_cons₂, if_pos ht1,
            if_neg (by omega)]
        · by_cases ht2 : t < y.era
          · rw [evalLedger_cons₂, if_neg ht1, hy'era, if_pos ht2,
              evalLedger_cons₂, if_neg ht1, if_pos ht2, if_neg (by omega)]
          · rw [evalLedger_cons₂, if_neg ht1, hy'era, if_neg ht2,
              evalLedger_cons₂, if_neg ht1, if_neg ht2]
            exact heval₂ t

theorem unstakeListCore_spec :
    ∀ (l : List EraStake) (e a : Nat), ErasSorted l → (∀ s ∈ l, s.era ≤ e) →
      ∃ l', unstakeListCore l e a = .ok l' ∧
        ErasSorted l' ∧
        (∀ s ∈ l', s.era ≤ e) ∧
        (∀ s ∈ l', s.era ∈ l.map EraStake.era ∨ s.era = e) ∧
        (∀ z zs, l = z :: zs → ∃ z' tl, l' = z' :: tl ∧ z'.era = z.era) ∧
        (∀ t, evalLedger l' t =
          if e ≤ t then evalLedger l t - a else evalLedger l t) := by
  intro l
  induction l with
  | nil =>
    intro e a _ _
    refine ⟨[], rfl, by simp [ErasSorted], by simp, by simp, by simp, ?_⟩
    intro t
    simp [evalLedger]
  | cons x rest ih =>
    intro e a hsort hle
    obtain ⟨hx_all, hrest_sorted⟩ := erasSorted_cons hsort
    have hxe : x.era ≤ e := hle x (by simp)
    cases rest with
    | nil =>
      by_cases he : e = x.era
      · refine ⟨[⟨x.amount - a, e⟩], ?_, by simp [ErasSorted], by simp [he.symm.le],
          by simp [he], ?_, ?_⟩
        · simp [unstakeListCore, Nat.not_lt.mpr hxe, he]
        · intro z zs hz
          injection hz with h1 _
          exact ⟨_, _, rfl, by rw [← h1]; exact he⟩
        · intro t
          by_cases het : e ≤ t
          · have h1 : ¬ t < x.era := by omega
            have h2 : x.era ≤ t := by omega
            simp [evalLedger_singleton, h1, h2, het, he]
          · have h1 : t < x.era := by omega
            simp [evalLedger_singleton, h1, het]
      · have hlt : x.era < e := by omega
        refine ⟨[x, ⟨x.amount - a, e⟩], ?_, ?_, ?_, ?_, ?_, ?_⟩
        · simp [unstakeListCore, Nat.not_lt.mpr hxe, he]
        · simpa [ErasSorted] using hlt
        · simp [hxe]
        · simp
        · intro z zs hz
          injection hz with h1 _
          exact ⟨_, _, rfl, by rw [h1]⟩
        · intro t
          rw [evalLedger_cons₂]
          by_cases het : e ≤ t
          · have h1 : ¬ t < x.era := by omega
            have h2 : ¬ t < e := by omega
            simp [evalLedger_singleton, h1, h2, het]
          · by_cases htx : t < x.era
            · simp [evalLedger_singleton, htx, het, Nat.lt_of_not_le het]
            · simp [evalLedger_singleton, htx, het, Nat.lt_of_not_le het]
    | cons y rest' =>
      have hyx : x.era < y.era := hx_all y (by simp)
      obtain ⟨l₂', hok, hsort₂, hle₂, horig₂, hhead₂, heval₂⟩ :=
        ih e a hrest_sorted (fun s hs => hle s (List.mem_cons_of_mem _ hs))
      obtain ⟨y', tl, rfl, hy'era⟩ := hhead₂ y rest' rfl
      have hye : y.era ≤ e := hle y (by simp)
      refine ⟨x :: y' :: tl, ?_, ?_, ?_, ?_, ?_, ?_⟩
      · simp [unstakeListCore, hok, Except.map]
      · refine List.pairwise_cons.mpr ⟨?_, hsort₂⟩
        intro z hz
        rcases horig₂ z hz with h1 | h1
        · simp only [List.map_cons, List.mem_cons] at h1
          rcases h1 with h1 | h1
          · omega
          · obtain ⟨w, hw, hwe⟩ := List.mem_map.mp h1
            have := (erasSorted_cons hrest_sorted).1 w hw
            omega
        · omega
      · intro s hs
        rcases List.mem_cons.mp hs with rfl | hs'
        · exact hxe
        · exact hle₂ s hs'
      · intro s hs
        rcases List.mem_cons.mp hs with rfl | hs'
        · simp
        · rcases horig₂ s hs' with h1 | h1
          · left; simp only [List.map_cons, List.mem_cons]; right
            simpa using h1
          · right; exact h1
      · intro z zs hz
        injection hz with h1 _
        exact ⟨_, _, rfl, by rw [h1]⟩
      · intro t
        by_cases ht1 : t < x.era
        · rw [evalLedger_cons₂, if_pos ht1, evalLedger_cons₂, if_pos ht1,
            if_neg (by omega)]
        · by_cases ht2 : t < y.era
          · rw [evalLedger_cons₂, if_neg ht1, hy'era, if_pos ht2,
              evalLedger_cons₂, if_neg ht1, if_pos ht2, if_neg (by omega)]
          · rw [evalLedger_cons₂, if_neg ht1, hy'era, if_neg ht2,
              evalLedger_cons₂, if_neg ht1, if_neg ht2]
            exact heval₂ t

theorem delegation_unstake_spec (l : List EraStake) (e a : Nat)
    (hsort : ErasSorted l) (hle : ∀ s ∈ l, s.era ≤ e) :
    ∃ l', Delegation.unstake ⟨l⟩ e a = .ok ⟨l'⟩ ∧
      ErasSorted l' ∧
      (∀ s ∈ l', s.era ≤ e) ∧
      (∀ s ∈ l', s.era ∈ l.map EraStake.era ∨ s.era = e) ∧
      (∀ t, evalLedger l' t =
        if e ≤ t then evalLedger l t - a else evalLedger l t) := by
  obtain ⟨lc, hok, hsortc, hlec, horigc, _, hevalc⟩ := unstakeListCore_spec l e a hsort hle
  refine ⟨dropZeroHead lc, ?_, erasSorted_dropZeroHead hsortc,
    fun s hs => hlec s (mem_dropZeroHead hs),
    fun s hs => horigc s (mem_dropZeroHead hs), ?_⟩
  · simp [Delegation.unstake, hok, Except.map]
  · intro t
    rw [evalLedger_dropZeroHead hsortc]
    exact hevalc t

theorem histVal_append (ops : List DelegationOp) (op : DelegationOp) (t : Nat) :
    histVal (ops ++ [op]) t =
      if op.opEra ≤ t then op.opApply (histVal ops t) else histVal ops t := by
  simp [histVal, List.foldl_append]

theorem applyOps_append (d : Delegation) (l₁ l₂ : List DelegationOp) :
    applyOps d (l₁ ++ l₂) = (applyOps d l₁).bind (applyOps · l₂) := by
  induction l₁ generalizing d with
  | nil => rfl
  | cons op l₁ ih =>
    simp only [List.cons_append, applyOps]
    cases applyOp d op with
    | error err => rfl
    | ok d' => simpa using ih d'

theorem applyOps_spec :
    ∀ ops : List DelegationOp,
      (ops.map DelegationOp.opEra).Sorted (· ≤ ·) →
      (∀ op ∈ ops, op.opAmount ≤ maxBalance) →
      ∃ l, applyOps ⟨[]⟩ ops = .ok ⟨l⟩ ∧ ErasSorted l ∧
        (∀ s ∈ l, ∃ op ∈ ops, s.era = op.opEra) ∧
        (∀ t, evalLedger l t = histVal ops t) := by
  intro ops
  induction ops using List.reverseRecOn with
  | nil =>
    intro _ _
    exact ⟨[], rfl, by simp [ErasSorted], by simp, fun t => by simp [evalLedger, histVal]⟩
  | append_singleton ops op ih =>
    intro hsorted hamounts
    rw [List.map_append] at hsorted
    have hsorted₁ : (ops.map DelegationOp.opEra).Sorted (· ≤ ·) :=
      (List.pairwise_append.mp hsorted).1
    have hbridge : ∀ o ∈ ops, o.opEra ≤ op.opEra := by
      intro o ho
      exact (List.pairwise_append.mp hsorted).2.2 o.opEra (List.mem_map_of_mem _ ho)
        op.opEra (by simp)
    obtain ⟨l, happ, hsortL, horigin, heval⟩ :=
      ih hsorted₁ (fun o ho => hamounts o (List.mem_append_left _ ho))
    have hle : ∀ s ∈ l, s.era ≤ op.opEra := by
      intro s hs
      obtain ⟨o, ho, hoe⟩ := horigin s hs
      rw [hoe]
      exact hbridge o ho
    have happ₂ : applyOps ⟨[]⟩ (ops ++ [op]) = applyOp ⟨l⟩ op := by
      rw [applyOps_append, happ]
      show applyOps ⟨l⟩ [op] = applyOp ⟨l⟩ op
      simp only [applyOps]
      cases applyOp ⟨l⟩ op <;> rfl
    cases op with
    | stakeOp e a =>
      obtain ⟨l', hok, hsort', hle', horig', _, heval'⟩ :=
        stakeList_spec l e a hsortL hle
          (hamounts (.stakeOp e a) (by simp) : a ≤ maxBalance)
      refine ⟨l', ?_, hsort', ?_, ?_⟩
      · rw [happ₂]
        show Delegation.stake ⟨l⟩ e a = _
        simp [Delegation.stake, hok, Except.map]
      · intro s hs
        rcases horig' s hs with h1 | h1
        · obtain ⟨w, hw, hwe⟩ := List.mem_map.mp h1
          obtain ⟨o, ho, hoe⟩ := horigin w hw
          exact ⟨o, List.mem_append_left _ ho, by omega⟩
        · exact ⟨.stakeOp e a, by simp, h1⟩
      · intro t
        rw [heval' t, histVal_append, heval t]
        rfl
    | unstakeOp e a =>
      obtain ⟨l', hok, hsort', hle', horig', heval'⟩ :=
        delegation_unstake_spec l e a hsortL hle
      refine ⟨l', ?_, hsort', ?_, ?_⟩
      · rw [happ₂]
        exact hok
      · intro s hs
        rcases horig' s hs with h1 | h1
        · obtain ⟨w, hw, hwe⟩ := List.mem_map.mp h1
          obtain ⟨o, ho, hoe⟩ := horigin w hw
          exact ⟨o, List.mem_append_left _ ho, by omega⟩
        · exact ⟨.unstakeOp e a, by simp, h1⟩
      · intro t
        rw [heval' t, histVal_append, heval t]
        rfl

theorem latest_staked_value_eq_lastAmount (l : List EraStake) :
    Delegation.latest_staked_value ⟨l⟩ = lastAmount l := by
  induction l with
  | nil => rfl
  | cons x rest ih =>
    cases rest with
    | nil => rfl
    | cons y rest' =>
      show Delegation.latest_staked_value ⟨x :: y :: rest'⟩ = lastAmount (y :: rest')
      rw [← ih]
      simp [Delegation.latest_staked_value, List.getLast?_cons_cons]

/-! ### Further helper lemmas -/

theorem lastAmount_cons_ne_nil (x : EraStake) {l : List EraStake} (h : l ≠ []) :
    lastAmount (x :: l) = lastAmount l := by
  cases l with
  | nil => exact absurd rfl h
  | cons y r => rfl

theorem stakeList_saturates :
    ∀ (l : List EraStake) (e a : Nat), l ≠ [] → lastEraD l ≤ e →
      ∃ l', stakeList l e a = .ok l' ∧ l' ≠ [] ∧
        lastAmount l' = min (lastAmount l + a) maxBalance := by
  intro l
  induction l with
  | nil => intro e a h _; exact absurd rfl h
  | cons x rest ih =>
    intro e a _ hle
    cases rest with
    | nil =>
      have hxe : x.era ≤ e := hle
      by_cases he : e = x.era
      · exact ⟨[⟨satAdd x.amount a, e⟩], by simp [stakeList, Nat.not_lt.mpr hxe, he],
          by simp, rfl⟩
      · exact ⟨[x, ⟨satAdd x.amount a, e⟩],
          by simp [stakeList, Nat.not_lt.mpr hxe, he], by simp, rfl⟩
    | cons y r =>
      obtain ⟨l₂', hok, hne, hlast⟩ := ih e a (by simp) hle
      refine ⟨x :: l₂', by simp [stakeList, hok, Except.map], by simp, ?_⟩
      rw [lastAmount_cons_ne_nil x hne, hlast,
        lastAmount_cons_ne_nil x (by simp : (y :: r : List EraStake) ≠ [])]

theorem dropZeroHead_length (l : List EraStake) :
    (dropZeroHead l).length ≤ l.length := by
  cases l with
  | nil => exact Nat.le_refl _
  | cons s r => by_cases h : s.amount = 0 <;> simp [dropZeroHead, h]

theorem foldl_add_amount (cs : List UnlockingChunk) :
    ∀ init, cs.foldl (fun acc x => acc + x.amount) init =
      init + (cs.map UnlockingChunk.amount).sum := by
  induction cs with
  | nil => intro init; simp
  | cons c cs ih =>
    intro init
    simp only [List.foldl_cons, List.map_cons, List.sum_cons, ih]
    omega

theorem unbonding_sum_eq (u : UnbondingMetadata) :
    u.sum = (u.unlocking_chunks.map UnlockingChunk.amount).sum := by
  obtain ⟨chunks⟩ := u
  cases chunks with
  | nil => rfl
  | cons c cs =>
    show cs.foldl (fun acc x => acc + x.amount) c.amount = _
    rw [foldl_add_amount]
    simp

theorem sum_filter_unlock_split (l : List UnlockingChunk) (e : Nat) :
    ((l.filter (fun c => c.unlock_era ≤ e)).map UnlockingChunk.amount).sum +
      ((l.filter (fun c => ¬ c.unlock_era ≤ e)).map UnlockingChunk.amount).sum =
      (l.map UnlockingChunk.amount).sum := by
  induction l with
  | nil => rfl
  | cons c cs ih =>
    by_cases h : c.unlock_era ≤ e
    · simp [List.filter_cons, h, not_le] at ih ⊢
      omega
    · have h' : e < c.unlock_era := Nat.lt_of_not_le h
      simp [List.filter_cons, h', not_le] at ih ⊢
      omega

/-! ### The claims -/

/-- C1 (counterexample): for the operation sequence
`stake(era 1, 100); unstake(era 2, 100)` on an initially empty delegation,
claiming until the ledger is empty returns a total of `100`, while the
staked sum minus the unstaked sum is `0` — the claimed total is not
"staked minus unstaked". -/
theorem claimAll_sum_ne_stake_minus_unstake :
    applyOps ⟨[]⟩ [.stakeOp 1 100, .unstakeOp 2 100] =
      .ok ⟨[⟨100, 1⟩, ⟨0, 2⟩]⟩ ∧
    (claimAllSt 4 ⟨[⟨100, 1⟩, ⟨0, 2⟩]⟩).2 = ⟨[]⟩ ∧
    ((claimAllSt 4 ⟨[⟨100, 1⟩, ⟨0, 2⟩]⟩).1.map Prod.snd).sum = 100 ∧
    stakeSum [.stakeOp 1 100, .unstakeOp 2 100] -
      unstakeSum [.stakeOp 1 100, .unstakeOp 2 100] = 0 := by
  refine ⟨rfl, rfl, by decide, by decide⟩

/-- C1 (amended): for every sequence of `stake`/`unstake` calls with
non-decreasing (u32) era arguments and u128 amounts, applied to an
initially empty delegation, all calls succeed, and — provided the sequence
ends fully unstaked, without which `claim()` never empties the ledger —
repeatedly claiming until the ledger is empty returns amounts whose sum is
the sum, over every era, of the amount staked during that era (each
unclaimed era is claimed once); in general this differs from total staked
minus total unstaked. -/
theorem claimAll_sum_eq_history_sum (ops : List DelegationOp) (d : Delegation)
    (fuel : Nat)
    (hsorted : (ops.map DelegationOp.opEra).Sorted (· ≤ ·))
    (heras : ∀ op ∈ ops, op.opEra ≤ eraMax)
    (hamounts : ∀ op ∈ ops, op.opAmount ≤ maxBalance)
    (happ : applyOps ⟨[]⟩ ops = .ok d)
    (hzero : d.latest_staked_value = 0)
    (hfuel : claimFuel d.stakes ≤ fuel) :
    (claimAllSt fuel d).2 = ⟨[]⟩ ∧
    ((claimAllSt fuel d).1.map Prod.snd).sum =
      ∑ t in Finset.range (eraMax + 1), histVal ops t := by
  obtain ⟨l, happ', hsortL, horigin, heval⟩ := applyOps_spec ops hsorted hamounts
  rw [happ'] at happ
  injection happ with h
  subst h
  have hM : ∀ s ∈ l, s.era ≤ eraMax := by
    intro s hs
    obtain ⟨o, ho, hoe⟩ := horigin s hs
    rw [hoe]
    exact heras o ho
  have hzero' : lastAmount l = 0 := by
    rw [← latest_staked_value_eq_lastAmount]
    exact hzero
  obtain ⟨hempty, hsum⟩ := claimAllSt_spec fuel l hfuel hsortL hM hzero'
  refine ⟨hempty, ?_⟩
  rw [hsum, encVal_eq_range_sum l hsortL hM hzero']
  exact Finset.sum_congr rfl (fun t _ => heval t)

/-- Witness for C1 (amended) at the concrete sequence
`stake(1, 100); unstake(2, 100)`. -/
theorem claimAll_sum_eq_history_sum_witness :
    (([DelegationOp.stakeOp 1 100,
       DelegationOp.unstakeOp 2 100].map DelegationOp.opEra).Sorted (· ≤ ·) ∧
     (∀ op ∈ [DelegationOp.stakeOp 1 100, DelegationOp.unstakeOp 2 100],
        op.opEra ≤ eraMax) ∧
     (∀ op ∈ [DelegationOp.stakeOp 1 100, DelegationOp.unstakeOp 2 100],
        op.opAmount ≤ maxBalance) ∧
     applyOps ⟨[]⟩ [DelegationOp.stakeOp 1 100, DelegationOp.unstakeOp 2 100] =
       .ok ⟨[⟨100, 1⟩, ⟨0, 2⟩]⟩ ∧
     Delegation.latest_staked_value ⟨[⟨100, 1⟩, ⟨0, 2⟩]⟩ = 0 ∧
     claimFuel [⟨100, 1⟩, ⟨0, 2⟩] ≤ 4) ∧
    ((claimAllSt 4 ⟨[⟨100, 1⟩, ⟨0, 2⟩]⟩).2 = ⟨[]⟩ ∧
     ((claimAllSt 4 ⟨[⟨100, 1⟩, ⟨0, 2⟩]⟩).1.map Prod.snd).sum =
       ∑ t in Finset.range (eraMax + 1),
         histVal [DelegationOp.stakeOp 1 100, DelegationOp.unstakeOp 2 100] t) :=
  ⟨⟨by decide, by decide, by decide, rfl, by decide, by decide⟩,
   claimAll_sum_eq_history_sum _ _ 4 (by decide) (by decide) (by decide) rfl
     (by decide) (by decide)⟩

/-- C2 (counterexample): on the delegation `[(era u32::MAX, amount 5)]`,
`claim()` returns the pair but leaves the entry's era at `u32::MAX`
(`saturating_add(1)`) instead of incrementing it to `u32::MAX + 1` as the
claim's "incremented by 1 in place" states. -/
theorem claim_era_saturates_at_u32_max :
    Delegation.claim ⟨[⟨5, eraMax⟩]⟩ = ((eraMax, 5), ⟨[⟨5, eraMax⟩]⟩) ∧
    (Delegation.claim ⟨[⟨5, eraMax⟩]⟩).2 ≠ ⟨[⟨5, eraMax + 1⟩]⟩ := by
  exact ⟨by decide, by decide⟩

/-- C2 (amended): on every `Delegation` whose eras strictly increase (the
documented invariant), `claim()` returns the oldest `(era, amount)` pair
and advances exactly as described — the oldest entry is removed when the
next entry's era is exactly `oldest.era + 1`, otherwise its era advances by
1 (saturating at `u32::MAX`) in place, and a zero-amount head is then
dropped; the empty delegation yields `(0, 0)` unchanged. -/
theorem claim_matches_spec_description (d : Delegation)
    (hsort : ErasSorted d.stakes) : d.claim = claimSpec d := by
  obtain ⟨stakes⟩ := d
  cases stakes with
  | nil => rfl
  | cons x rest =>
    cases rest with
    | nil => rfl
    | cons next r =>
      have hx : x.era < next.era := (erasSorted_cons hsort).1 next (by simp)
      by_cases he : next.era = x.era + 1
      · have h2 : ¬ x.era + 1 < next.era := by omega
        simp [Delegation.claim, claimSpec, he, h2]
      · have h2 : x.era + 1 < next.era := by omega
        simp [Delegation.claim, claimSpec, he, h2]

/-- Witness for C2 (amended) at the delegation `[(5, 1000), (7, 1300)]`. -/
theorem claim_matches_spec_description_witness :
    ErasSorted [⟨1000, 5⟩, ⟨1300, 7⟩] ∧
    Delegation.claim ⟨[⟨1000, 5⟩, ⟨1300, 7⟩]⟩ =
      claimSpec ⟨[⟨1000, 5⟩, ⟨1300, 7⟩]⟩ :=
  ⟨by decide, claim_matches_spec_description ⟨[⟨1000, 5⟩, ⟨1300, 7⟩]⟩ (by decide)⟩

/-- C3: at the very first invocation of the per-block hook — block `1`,
with `Era` at its `Default` value `EraInfo::new(1, 1, 20)` — no era
transition happens: `should_update(1)` is `1 - 1 >= 20 = false`, so the
hook is a no-op, the genesis era index is already `1` (not `0`, so the
`previous_era == 0` rescale branch is dead), and the forced first
transition asserted by the specification (and by the pallet's own test
`on_initialize_is_ok`, which expects a zero genesis era) does not occur. -/
theorem first_on_init_no_forced_transition :
    eraInfoDefault.current = 1 ∧
    eraInfoDefault.should_update 1 = false ∧
    on_init_hook ⟨3, 800000000, 10, 5, 10, 8, 3, 4⟩ 1
      { era := eraInfoDefault, eraState := fun _ => none, rewardAccumulator := 0,
        providerInfo := fun _ => none, providerEraInfo := fun _ _ => none,
        delegationInfo := fun _ _ => ⟨[]⟩, unbondingInfo := fun _ => ⟨[]⟩,
        events := [] } =
      { era := eraInfoDefault, eraState := fun _ => none, rewardAccumulator := 0,
        providerInfo := fun _ => none, providerEraInfo := fun _ _ => none,
        delegationInfo := fun _ _ => ⟨[]⟩, unbondingInfo := fun _ => ⟨[]⟩,
        events := [] } :=
  ⟨rfl, rfl, rfl⟩

/-- C4 (counterexample): `Delegation::stake` at the `u128` boundary —
staking `5` more onto a ledger whose tail amount is `u128::MAX` overflows,
yet the call succeeds and silently stores the saturated amount instead of
rejecting the operation. -/
theorem delegation_stake_saturates_silently :
    maxBalance < maxBalance + 5 ∧
    Delegation.stake ⟨[⟨maxBalance, 1⟩]⟩ 1 5 = .ok ⟨[⟨maxBalance, 1⟩]⟩ :=
  ⟨by decide, rfl⟩

/-- C4 (amended): `Delegation::stake` never rejects on arithmetic overflow —
on any non-empty ledger whose tail era does not exceed the stake era it
succeeds, storing the tail amount saturated at `u128::MAX`; the checked
additive update rejected on overflow is the `ProviderEraInfo` `total`
update in `Pallet::delegate`, which fails the whole call with
`ArithmeticError::Overflow`. -/
theorem stake_saturates_delegate_checks_overflow :
    (∀ (l : List EraStake) (e a : Nat), l ≠ [] → lastEraD l ≤ e →
      ∃ l', Delegation.stake ⟨l⟩ e a = .ok ⟨l'⟩ ∧
        lastAmount l' = min (lastAmount l + a) maxBalance) ∧
    (∀ (cfg : Cfg) (delegator provider_id amount : Nat) (ok : Bool)
      (s : PalletState) (d₁ : Delegation),
      amount ≠ 0 →
      is_active_provider s provider_id = true →
      (s.delegationInfo delegator provider_id).latest_staked_value ≠ 0 →
      (s.delegationInfo delegator provider_id).stake s.era.current amount = .ok d₁ →
      d₁.len < cfg.maxEraStakeValues →
      cfg.minDelegatorStake ≤ d₁.latest_staked_value →
      maxBalance <
        ((s.providerEraInfo provider_id s.era.current).getD default).total + amount →
      delegate cfg delegator provider_id amount ok s =
        .error .ArithmeticOverflow) := by
  constructor
  · intro l e a hne hle
    obtain ⟨l', hok, _, hlast⟩ := stakeList_saturates l e a hne hle
    exact ⟨l', by simp [Delegation.stake, hok, Except.map], hlast⟩
  · intro cfg delegator provider_id amount ok s d₁ ham hact hlat hstake hlen hmin hover
    have hchk : checkedAdd
        ((s.providerEraInfo provider_id s.era.current).getD default).total amount =
        none := by
      simp only [checkedAdd, if_neg (Nat.not_le.mpr hover)]
    have hmin' : ¬ d₁.latest_staked_value < cfg.minDelegatorStake :=
      Nat.not_lt.mpr hmin
    simp [delegate, ham, hact, hlat, hstake, hlen, hmin', hchk]

/-- Witness for C4 (amended): the saturation conjunct at
`stake([(10, era 1)], era 1, 5)` and the overflow-rejection conjunct at
`delegate` of 5 onto a provider whose era total is already `u128::MAX`. -/
theorem stake_saturates_delegate_checks_overflow_witness :
    (([⟨10, 1⟩] : List EraStake) ≠ [] ∧ lastEraD [⟨10, 1⟩] ≤ 1 ∧
     (∃ l', Delegation.stake ⟨[⟨10, 1⟩]⟩ 1 5 = .ok ⟨l'⟩ ∧
        lastAmount l' = min (lastAmount [⟨10, 1⟩] + 5) maxBalance)) ∧
    ((5 : Nat) ≠ 0 ∧
     is_active_provider sOverflow 0 = true ∧
     (sOverflow.delegationInfo 2 0).latest_staked_value ≠ 0 ∧
     (sOverflow.delegationInfo 2 0).stake sOverflow.era.current 5 =
       .ok ⟨[⟨55, 1⟩]⟩ ∧
     Delegation.len ⟨[⟨55, 1⟩]⟩ < cfgMock.maxEraStakeValues ∧
     cfgMock.minDelegatorStake ≤ Delegation.latest_staked_value ⟨[⟨55, 1⟩]⟩ ∧
     maxBalance <
       ((sOverflow.providerEraInfo 0 sOverflow.era.current).getD default).total + 5 ∧
     delegate cfgMock 2 0 5 true sOverflow = .error .ArithmeticOverflow) :=
  ⟨⟨by decide, by decide,
    stake_saturates_delegate_checks_overflow.1 [⟨10, 1⟩] 1 5 (by decide) (by decide)⟩,
   ⟨by decide, rfl, by decide, rfl, by decide, by decide, by decide,
    stake_saturates_delegate_checks_overflow.2 cfgMock 2 0 5 true sOverflow
      ⟨[⟨55, 1⟩]⟩ (by decide) rfl (by decide) rfl (by decide) (by decide)
      (by decide)⟩⟩

/-- C7: `partition(e)` returns exactly the chunks with `unlock_era <= e`
first and all remaining chunks second, each in original order (a sublist of
the ledger), and the two sums add up to the original sum. -/
theorem partition_filter_and_sum (u : UnbondingMetadata) (e : Nat) :
    (u.partition e).1.unlocking_chunks =
      u.unlocking_chunks.filter (fun c => c.unlock_era ≤ e) ∧
    (u.partition e).2.unlocking_chunks =
      u.unlocking_chunks.filter (fun c => ¬ c.unlock_era ≤ e) ∧
    List.Sublist (u.partition e).1.unlocking_chunks u.unlocking_chunks ∧
    List.Sublist (u.partition e).2.unlocking_chunks u.unlocking_chunks ∧
    (u.partition e).1.sum + (u.partition e).2.sum = u.sum := by
  refine ⟨rfl, rfl, List.filter_sublist _, List.filter_sublist _, ?_⟩
  rw [unbonding_sum_eq, unbonding_sum_eq, unbonding_sum_eq]
  exact sum_filter_unlock_split u.unlocking_chunks e

/-- C10: a `claim()` call never lengthens the stored history — the number
of `EraStake` entries after the call is at most the number before. -/
theorem claim_never_lengthens (d : Delegation) : d.claim.2.len ≤ d.len := by
  obtain ⟨stakes⟩ := d
  cases stakes with
  | nil => exact Nat.le_refl _
  | cons x rest =>
    cases rest with
    | nil =>
      have := dropZeroHead_length [(⟨x.amount, satAdd32 x.era 1⟩ : EraStake)]
      simp only [Delegation.claim, Delegation.len]
      simp at this ⊢
      omega
    | cons y r =>
      by_cases h : x.era + 1 < y.era
      · have := dropZeroHead_length ((⟨x.amount, satAdd32 x.era 1⟩ : EraStake) :: y :: r)
        simp only [Delegation.claim, Delegation.len, if_pos h]
        simp at this ⊢
        omega
      · have := dropZeroHead_length (y :: r)
        simp only [Delegation.claim, Delegation.len, if_neg h]
        simp at this ⊢
        omega

/-- C6: era rotation — an Active provider with a record for the ending era
has it copied to the next era with `provider_reward_claimed` reset; an
Inactive provider's records (at any era) are untouched; an Active provider
without a record for the ending era gets nothing created; eras other than
`era + 1` are never written. -/
theorem rotate_provider_era_info_spec (s : PalletState) (era p : Nat) :
    (∀ m r, s.providerInfo p = some m → m.status = ProviderStatus.Registered →
      s.providerEraInfo p era = some r →
      (rotate_provider_era_info era s).providerEraInfo p (era + 1) =
        some { r with provider_reward_claimed := false }) ∧
    (∀ m u, s.providerInfo p = some m →
      m.status = ProviderStatus.Unregistered u →
      ∀ e, (rotate_provider_era_info era s).providerEraInfo p e =
        s.providerEraInfo p e) ∧
    (∀ m, s.providerInfo p = some m → m.status = ProviderStatus.Registered →
      s.providerEraInfo p era = none →
      (rotate_provider_era_info era s).providerEraInfo p (era + 1) =
        s.providerEraInfo p (era + 1)) ∧
    (∀ e, e ≠ era + 1 →
      (rotate_provider_era_info era s).providerEraInfo p e =
        s.providerEraInfo p e) := by
  refine ⟨?_, ?_, ?_, ?_⟩
  · intro m r hm hst hr
    simp [rotate_provider_era_info, hm, hst, hr]
  · intro m u hm hst e
    by_cases he : e = era + 1 <;> simp [rotate_provider_era_info, hm, hst, he]
  · intro m hm hst hr
    simp [rotate_provider_era_info, hm, hst, hr]
  · intro e he
    simp [rotate_provider_era_info, he]

/-- Witness for C6 on `sRotate` (ending era 1): provider 0 is Active with a
claimed era-1 record, provider 1 is Inactive, provider 2 is Active without
an era-1 record. -/
theorem rotate_provider_era_info_spec_witness :
    (sRotate.providerInfo 0 = some ⟨7, .Registered, false⟩ ∧
     sRotate.providerEraInfo 0 1 = some ⟨10, 15, 1, true⟩ ∧
     (rotate_provider_era_info 1 sRotate).providerEraInfo 0 2 =
       some ⟨10, 15, 1, false⟩) ∧
    (sRotate.providerInfo 1 = some ⟨8, .Unregistered 1, false⟩ ∧
     ∀ e, (rotate_provider_era_info 1 sRotate).providerEraInfo 1 e =
       sRotate.providerEraInfo 1 e) ∧
    (sRotate.providerInfo 2 = some ⟨9, .Registered, false⟩ ∧
     sRotate.providerEraInfo 2 1 = none ∧
     (rotate_provider_era_info 1 sRotate).providerEraInfo 2 2 =
       sRotate.providerEraInfo 2 2) :=
  ⟨⟨rfl, rfl,
    (rotate_provider_era_info_spec sRotate 1 0).1 ⟨7, .Registered, false⟩
      ⟨10, 15, 1, true⟩ rfl rfl rfl⟩,
   ⟨rfl,
    (rotate_provider_era_info_spec sRotate 1 1).2.1 ⟨8, .Unregistered 1, false⟩ 1
      rfl rfl⟩,
   ⟨rfl, rfl,
    (rotate_provider_era_info_spec sRotate 1 2).2.2.1 ⟨9, .Registered, false⟩
      rfl rfl rfl⟩⟩

/-- C8: once a provider is Inactive(u), a provider claim for any era
`>= u` is rejected (`NotOperatedProvider`), and a delegator claim whose
oldest unclaimed era is `>= u` is rejected as well
(`NotOperatedProvider`, or `NotStakedProvider` when the claimed amount is
zero). -/
theorem claims_rejected_after_deactivation :
    (∀ (cfg : Cfg) (provider_id era : Nat) (ok : Bool) (s : PalletState) m u,
      s.providerInfo provider_id = some m →
      m.status = ProviderStatus.Unregistered u → u ≤ era →
      claim_provider cfg provider_id era ok s = .error .NotOperatedProvider) ∧
    (∀ (cfg : Cfg) (delegator provider_id : Nat) (ok : Bool) (s : PalletState) m u,
      s.providerInfo provider_id = some m →
      m.status = ProviderStatus.Unregistered u →
      u ≤ ((s.delegationInfo delegator provider_id).claim).1.1 →
      ((s.delegationInfo delegator provider_id).claim).1.2 ≠ 0 →
      claim_delegator cfg delegator provider_id ok s =
        .error .NotOperatedProvider) ∧
    (∀ (cfg : Cfg) (delegator provider_id : Nat) (ok : Bool) (s : PalletState),
      ((s.delegationInfo delegator provider_id).claim).1.2 = 0 →
      claim_delegator cfg delegator provider_id ok s =
        .error .NotStakedProvider) := by
  refine ⟨?_, ?_, ?_⟩
  · intro cfg provider_id era ok s m u hm hst hu
    simp [claim_provider, hm, hst, hu]
  · intro cfg delegator provider_id ok s m u hm hst hu hstaked
    simp [claim_delegator, hm, hst, hu, hstaked]
  · intro cfg delegator provider_id ok s hstaked
    simp [claim_delegator, hstaked]

/-- Witness for C8 on `sInactive` (provider 0 Inactive since era 3, current
era 5, delegation `[(era 3, 50)]`). -/
theorem claims_rejected_after_deactivation_witness :
    (sInactive.providerInfo 0 = some ⟨7, .Unregistered 3, false⟩ ∧
     (3 : Nat) ≤ 3 ∧
     claim_provider cfgMock 0 3 true sInactive = .error .NotOperatedProvider) ∧
    ((3 : Nat) ≤ ((sInactive.delegationInfo 2 0).claim).1.1 ∧
     ((sInactive.delegationInfo 2 0).claim).1.2 ≠ 0 ∧
     claim_delegator cfgMock 2 0 true sInactive = .error .NotOperatedProvider) ∧
    (((sInactive.delegationInfo 3 0).claim).1.2 = 0 ∧
     claim_delegator cfgMock 3 0 true sInactive = .error .NotStakedProvider) :=
  ⟨⟨rfl, by decide,
    claims_rejected_after_deactivation.1 cfgMock 0 3 true sInactive
      ⟨7, .Unregistered 3, false⟩ 3 rfl rfl (by decide)⟩,
   ⟨by decide, by decide,
    claims_rejected_after_deactivation.2.1 cfgMock 2 0 true sInactive
      ⟨7, .Unregistered 3, false⟩ 3 rfl rfl (by decide) (by decide)⟩,
   ⟨by decide,
    claims_rejected_after_deactivation.2.2 cfgMock 3 0 true sInactive
      (by decide)⟩⟩

/-- C9: a successful `claim_delegator` pays out exactly
`Perbill::from_rational(staked, total - bond) * delegators_reward` for the
claimed era — proportional among delegators only (the provider's own bond
is excluded from the denominator), computed with the parts-per-billion
rational arithmetic. -/
theorem claim_delegator_payout_formula
    (cfg : Cfg) (delegator provider_id : Nat) (ok : Bool) (s s' : PalletState)
    (era staked : Nat) (d' : Delegation) (es : EraMetadata)
    (hclaim : (s.delegationInfo delegator provider_id).claim = ((era, staked), d'))
    (hes : s.eraState era = some es)
    (h : claim_delegator cfg delegator provider_id ok s = .ok s') :
    s'.events = s.events ++
      [.Payout delegator provider_id era
        (perbillMul
          (perbillFromRational staked
            (((s.providerEraInfo provider_id era).getD default).total -
             ((s.providerEraInfo provider_id era).getD default).bond))
          (split_provider_delegators_rewards cfg
            ((s.providerEraInfo provider_id era).getD default) es).2)] := by
  simp only [claim_delegator, hclaim] at h
  split at h
  · exact Except.noConfusion h
  · split at h
    · exact Except.noConfusion h
    · split at h
      · exact Except.noConfusion h
      · split at h
        · exact Except.noConfusion h
        · rw [hes] at h
          split at h
          · exact Except.noConfusion h
          · rename_i xx era_state hsome
            injection hsome with hse
            subst hse
            split at h
            · exact Except.noConfusion h
            · injection h with h'
              subst h'
              rfl

/-- Witness for C9 on `sClaim`: account 2's oldest unclaimed era is 1 with
5 staked; the provider's era-1 record has total 15 and bond 10; the era-1
delegator pool is 200, and the payout is
`from_rational(5, 15 - 10) * 200 = 200`. -/
theorem claim_delegator_payout_formula_witness :
    ((sClaim.delegationInfo 2 0).claim = ((1, 5), ⟨[⟨5, 2⟩]⟩) ∧
     sClaim.eraState 1 = some ⟨1000, 15⟩ ∧
     claim_delegator cfgMock 2 0 true sClaim = .ok sClaimDelRes) ∧
    sClaimDelRes.events = sClaim.events ++
      [.Payout 2 0 1
        (perbillMul
          (perbillFromRational 5
            (((sClaim.providerEraInfo 0 1).getD default).total -
             ((sClaim.providerEraInfo 0 1).getD default).bond))
          (split_provider_delegators_rewards cfgMock
            ((sClaim.providerEraInfo 0 1).getD default) ⟨1000, 15⟩).2)] :=
  ⟨⟨rfl, rfl, rfl⟩,
   claim_delegator_payout_formula cfgMock 2 0 true sClaim sClaimDelRes 1 5
     ⟨[⟨5, 2⟩]⟩ ⟨1000, 15⟩ rfl rfl rfl⟩

theorem upd1_ne {α : Type} {f : Nat → α} {k : Nat} {v : α} {a : Nat} (h : a ≠ k) :
    upd1 f k v a = f a := by
  simp [upd1, h]

theorem upd2_ne_snd {α : Type} {f : Nat → Nat → α} {k₁ k₂ : Nat} {v : α}
    {a b : Nat} (h : b ≠ k₂) : upd2 f k₁ k₂ v a b = f a b := by
  simp only [upd2]
  rw [if_neg]
  rintro ⟨_, rfl⟩
  exact h rfl

theorem pstep_preserves_claimedInv {cfg : Cfg} {p e : Nat} {s s' : PalletState}
    (hstep : PStep cfg s s') (hinv : ClaimedInv p e s) : ClaimedInv p e s' := by
  obtain ⟨hcur, heM, ⟨r, hr, hrc⟩, ⟨m, hm, hmu⟩⟩ := hinv
  cases hstep with
  | set_blocks new h =>
    simp only [set_blocks_per_era] at h
    split at h
    · exact Except.noConfusion h
    · injection h with h'
      subst h'
      exact ⟨hcur, heM, ⟨r, hr, hrc⟩, ⟨m, hm, hmu⟩⟩
  | bond_more who provider_id amount ok h =>
    simp only [provider_bond_more] at h
    repeat' split at h
    any_goals exact Except.noConfusion h
    injection h with h'
    subst h'
    refine ⟨hcur, heM, ⟨r, ?_, hrc⟩, ⟨m, hm, hmu⟩⟩
    dsimp only
    rw [upd2_ne_snd (show e ≠ s.era.current by omega)]
    exact hr
  | bond_less who provider_id amount h =>
    simp only [provider_bond_less] at h
    repeat' split at h
    any_goals exact Except.noConfusion h
    injection h with h'
    subst h'
    refine ⟨hcur, heM, ⟨r, ?_, hrc⟩, ⟨m, hm, hmu⟩⟩
    dsimp only
    rw [upd2_ne_snd (show e ≠ s.era.current by omega)]
    exact hr
  | do_delegate delegator provider_id amount ok h =>
    simp only [delegate] at h
    repeat' split at h
    any_goals exact Except.noConfusion h
    all_goals
      (injection h with h'
       subst h'
       refine ⟨hcur, heM, ⟨r, ?_, hrc⟩, ⟨m, hm, hmu⟩⟩
       dsimp only
       rw [upd2_ne_snd (show e ≠ s.era.current by omega)]
       exact hr)
  | do_unstake delegator provider_id amount h =>
    simp only [delegator_unstake] at h
    repeat' split at h
    any_goals exact Except.noConfusion h
    all_goals
      (injection h with h'
       subst h'
       refine ⟨hcur, heM, ⟨r, ?_, hrc⟩, ⟨m, hm, hmu⟩⟩
       dsimp only
       rw [upd2_ne_snd (show e ≠ s.era.current by omega)]
       exact hr)
  | do_withdraw who h =>
    simp only [withdraw_unbonded] at h
    repeat' split at h
    any_goals exact Except.noConfusion h
    injection h with h'
    subst h'
    exact ⟨hcur, heM, ⟨r, hr, hrc⟩, ⟨m, hm, hmu⟩⟩
  | do_claim_provider provider_id era ok h =>
    simp only [claim_provider] at h
    repeat' split at h
    any_goals exact Except.noConfusion h
    injection h with h'
    subst h'
    refine ⟨hcur, heM, ?_, ⟨m, hm, hmu⟩⟩
    by_cases hpe : p = provider_id ∧ e = era
    · obtain ⟨rfl, rfl⟩ := hpe
      refine ⟨{ (s.providerEraInfo p e).getD default with
        provider_reward_claimed := true }, ?_, rfl⟩
      dsimp only
      simp [upd2]
    · refine ⟨r, ?_, hrc⟩
      dsimp only
      rw [show upd2 s.providerEraInfo provider_id era _ p e = s.providerEraInfo p e
        by simp [upd2, hpe]]
      exact hr
  | do_claim_delegator delegator provider_id ok h =>
    simp only [claim_delegator] at h
    repeat' split at h
    any_goals exact Except.noConfusion h
    injection h with h'
    subst h'
    exact ⟨hcur, heM, ⟨r, hr, hrc⟩, ⟨m, hm, hmu⟩⟩
  | provider_withdraw provider_id h =>
    cases hpi : s.providerInfo provider_id with
    | none =>
      simp only [provider_withdraw_unregistered, hpi] at h
      exact Except.noConfusion h
    | some pi =>
      simp only [provider_withdraw_unregistered, hpi] at h
      split at h
      · exact Except.noConfusion h
      · cases hst : pi.status with
        | Registered =>
          simp only [hst] at h
          exact Except.noConfusion h
        | Unregistered u =>
          simp only [hst] at h
          split at h
          · exact Except.noConfusion h
          · injection h with h'
            subst h'
            refine ⟨hcur, heM, ⟨r, hr, hrc⟩, ?_⟩
            by_cases hp : p = provider_id
            · subst hp
              have hpm : pi = m := by
                rw [hpi] at hm
                injection hm
              refine ⟨{ pi with bond_withdrawn := true }, ?_, ?_⟩
              · dsimp only
                simp [upd1, hst]
              · intro u' hu'
                refine hmu u' ?_
                rw [← hpm]
                exact hu'
            · refine ⟨m, ?_, hmu⟩
              dsimp only
              rw [upd1_ne hp]
              exact hm
  | delegator_withdraw delegator provider_id h =>
    simp only [delegator_withdraw_unregistered] at h
    repeat' split at h
    any_goals exact Except.noConfusion h
    injection h with h'
    subst h'
    exact ⟨hcur, heM, ⟨r, hr, hrc⟩, ⟨m, hm, hmu⟩⟩
  | do_register account provider_id bond ok h =>
    simp only [register_provider] at h
    split at h
    · exact Except.noConfusion h
    next hguard =>
      split at h
      · exact Except.noConfusion h
      split at h
      · exact Except.noConfusion h
      injection h with h'
      subst h'
      have hp : p ≠ provider_id := by
        intro hpe
        rw [hpe] at hm
        exact hguard (by rw [hm]; rfl)
      refine ⟨hcur, heM, ⟨r, ?_, hrc⟩, ⟨m, ?_, hmu⟩⟩
      · dsimp only
        rw [upd2_ne_snd (show e ≠ s.era.current by omega)]
        exact hr
      · dsimp only
        rw [upd1_ne hp]
        exact hm
  | do_unregister provider_id h =>
    cases hpi : s.providerInfo provider_id with
    | none =>
      simp only [unregister_provider, hpi] at h
      exact Except.noConfusion h
    | some provider =>
      simp only [unregister_provider, hpi] at h
      split at h
      · exact Except.noConfusion h
      · injection h with h'
        subst h'
        refine ⟨hcur, heM, ⟨r, hr, hrc⟩, ?_⟩
        by_cases hp : p = provider_id
        · subst hp
          refine ⟨{ provider with
            status := ProviderStatus.Unregistered s.era.current }, ?_, ?_⟩
          · dsimp only
            simp [upd1]
          · intro u hu
            have h2 : ProviderStatus.Unregistered s.era.current =
                ProviderStatus.Unregistered u := hu
            injection h2 with h3
            omega
        · refine ⟨m, ?_, hmu⟩
          dsimp only
          rw [upd1_ne hp]
          exact hm
  | do_on_init n =>
    simp only [on_init_hook]
    split
    · refine ⟨?_, heM, ⟨r, ?_, hrc⟩, ⟨m, hm, hmu⟩⟩
      · simp only [rotate_provider_era_info, snapshot_era_rewards, EraInfo.update,
          satAdd32]
        by_cases h0 : s.era.current = 0
        · exfalso
          omega
        · simp only [if_neg h0]
          omega
      · simp only [rotate_provider_era_info, snapshot_era_rewards]
        rw [if_neg (show ¬ e = s.era.current + 1 by omega)]
        exact hr
    · exact ⟨hcur, heM, ⟨r, hr, hrc⟩, ⟨m, hm, hmu⟩⟩
  | do_handle_imbalance amount =>
    exact ⟨hcur, heM, ⟨r, hr, hrc⟩, ⟨m, hm, hmu⟩⟩

theorem claim_provider_ok_inv {cfg : Cfg} {provider_id era : Nat} {ok : Bool}
    {s s' : PalletState} (hcurM : s.era.current ≤ eraMax)
    (h : claim_provider cfg provider_id era ok s = .ok s') :
    ClaimedInv provider_id era s' := by
  cases hpi : s.providerInfo provider_id with
  | none =>
    simp only [claim_provider, hpi] at h
    exact Except.noConfusion h
  | some pinfo =>
    simp only [claim_provider, hpi] at h
    split at h
    · exact Except.noConfusion h
    next hg1 =>
      split at h
      · exact Except.noConfusion h
      next hg2 =>
        split at h
        · exact Except.noConfusion h
        next hclaimed =>
          split at h
          · exact Except.noConfusion h
          next htotal =>
            split at h
            · exact Except.noConfusion h
            next es hes =>
              split at h
              · exact Except.noConfusion h
              next hok =>
                injection h with h'
                subst h'
                have hg2' : era < s.era.current := not_not.mp hg2
                refine ⟨hg2', by omega,
                  ⟨{ (s.providerEraInfo provider_id era).getD default with
                      provider_reward_claimed := true }, ?_, rfl⟩,
                  ⟨pinfo, hpi, ?_⟩⟩
                · dsimp only
                  simp [upd2]
                · intro u hu
                  rw [hu] at hg1
                  simp at hg1
                  omega

theorem claimedInv_claim_provider_fails {cfg : Cfg} {provider_id era : Nat}
    {ok : Bool} {s : PalletState} (hinv : ClaimedInv provider_id era s) :
    claim_provider cfg provider_id era ok s =
      .error .AlreadyClaimedInThisEra := by
  obtain ⟨hcur, _, ⟨r, hr, hrc⟩, ⟨m, hm, hmu⟩⟩ := hinv
  cases hst : m.status with
  | Registered => simp [claim_provider, hm, hst, hcur, hr, hrc]
  | Unregistered u =>
    have hu := hmu u hst
    simp [claim_provider, hm, hst, show ¬ u ≤ era by omega, hcur, hr, hrc]

/-- C5: once `claim_provider(provider_id, era)` has succeeded, every later
`claim_provider` call for the same pair — after any interleaving of
successful pallet operations and block hooks — fails with
`AlreadyClaimedInThisEra`. -/
theorem claim_provider_at_most_once {cfg : Cfg} {provider_id era : Nat}
    {ok₁ ok₂ : Bool} {s s₁ s₂ : PalletState}
    (hcurM : s.era.current ≤ eraMax)
    (h₁ : claim_provider cfg provider_id era ok₁ s = .ok s₁)
    (hreach : PReach cfg s₁ s₂) :
    claim_provider cfg provider_id era ok₂ s₂ =
      .error .AlreadyClaimedInThisEra := by
  have hinv₂ : ClaimedInv provider_id era s₂ := by
    induction hreach with
    | refl => exact claim_provider_ok_inv hcurM h₁
    | tail hsteps hstep ih => exact pstep_preserves_claimedInv hstep ih
  exact claimedInv_claim_provider_fails hinv₂

/-- Witness for C5 on `sClaim`: provider 0 claims era 1 successfully once;
an immediate second claim fails with `AlreadyClaimedInThisEra`. -/
theorem claim_provider_at_most_once_witness :
    sClaim.era.current ≤ eraMax ∧
    claim_provider cfgMock 0 1 true sClaim = .ok sClaimProvRes ∧
    claim_provider cfgMock 0 1 true sClaimProvRes =
      .error .AlreadyClaimedInThisEra :=
  ⟨by decide, rfl,
   @claim_provider_at_most_once cfgMock 0 1 true true sClaim sClaimProvRes
     sClaimProvRes (by decide) rfl Relation.ReflTransGen.refl⟩
